import Mathlib

/-!
Verification development for the Simplitics privacy-preserving event
pipeline.  The JavaScript sources are shallowly embedded: JS strings are
modelled as `List Char` or byte lists (`List Nat`, each element `< 256`),
JS objects holding event properties as association lists, and the
platform crypto primitives (SHA-256, AES-256-GCM) are implemented in
full so that the embedded `hash`, `encrypt` and `decrypt` compute real
values.
-/

namespace Simplitics

/-! ## Bytes and hexadecimal rendering

Models `Buffer`/`Uint8Array` values as lists of naturals `< 256`, and the
hex rendering used by `hashValue` (`b.toString(16).padStart(2, '0')`) and
by `Buffer.prototype.toString('hex')`. -/

/-- One lowercase hexadecimal digit, as produced by `Number.toString(16)`. -/
def hexChar (n : Nat) : Char :=
  if n = 0 then '0' else if n = 1 then '1' else if n = 2 then '2'
  else if n = 3 then '3' else if n = 4 then '4' else if n = 5 then '5'
  else if n = 6 then '6' else if n = 7 then '7' else if n = 8 then '8'
  else if n = 9 then '9' else if n = 10 then 'a' else if n = 11 then 'b'
  else if n = 12 then 'c' else if n = 13 then 'd' else if n = 14 then 'e'
  else 'f'

/-- Numeric value of a hex digit, `none` on a non-hex character
(Node's `Buffer.from(_, 'hex')` stops decoding there). -/
def hexVal (c : Char) : Option Nat :=
  if c = '0' then some 0 else if c = '1' then some 1 else if c = '2' then some 2
  else if c = '3' then some 3 else if c = '4' then some 4 else if c = '5' then some 5
  else if c = '6' then some 6 else if c = '7' then some 7 else if c = '8' then some 8
  else if c = '9' then some 9 else if c = 'a' then some 10 else if c = 'b' then some 11
  else if c = 'c' then some 12 else if c = 'd' then some 13 else if c = 'e' then some 14
  else if c = 'f' then some 15
  else if c = 'A' then some 10 else if c = 'B' then some 11 else if c = 'C' then some 12
  else if c = 'D' then some 13 else if c = 'E' then some 14 else if c = 'F' then some 15
  else none

/-- `byte.toString(16).padStart(2, '0')`: two lowercase hex digits. -/
def byteToHex (b : Nat) : List Char := [hexChar (b / 16), hexChar (b % 16)]

/-- `Buffer.prototype.toString('hex')` over a byte list. -/
def bytesToHex (bs : List Nat) : List Char := bs.flatMap byteToHex

/-- `Buffer.from(s, 'hex')`: decodes hex pairs, silently truncating at the
first character that is not a hex digit (Node semantics). -/
def hexToBytes : List Char → List Nat
  | c₁ :: c₂ :: rest =>
    match hexVal c₁, hexVal c₂ with
    | some h, some l => (16 * h + l) :: hexToBytes rest
    | _, _ => []
  | _ => []

/-! ## SHA-256

Full embedding of the SHA-256 digest used by both `crypto.subtle.digest`
(frontend `PrivacyEnhancer.hashValue`) and Node's
`crypto.createHash('sha256')` (backend `hash`). -/

/-- 2^32, the modulus for 32-bit words. -/
def M32 : Nat := 4294967296

/-- Right rotation of a 32-bit word. -/
def rotr32 (n x : Nat) : Nat := ((x >>> n) ||| (x <<< (32 - n))) % M32

/-- Addition modulo 2^32. -/
def add32 (a b : Nat) : Nat := (a + b) % M32

/-- SHA-256 round constants. -/
def sha256K : List Nat :=
  [1116352408, 1899447441, 3049323471, 3921009573, 961987163, 1508970993, 2453635748, 2870763221,
   3624381080, 310598401, 607225278, 1426881987, 1925078388, 2162078206, 2614888103, 3248222580,
   3835390401, 4022224774, 264347078, 604807628, 770255983, 1249150122, 1555081692, 1996064986,
   2554220882, 2821834349, 2952996808, 3210313671, 3336571891, 3584528711, 113926993, 338241895,
   666307205, 773529912, 1294757372, 1396182291, 1695183700, 1986661051, 2177026350, 2456956037,
   2730485921, 2820302411, 3259730800, 3345764771, 3516065817, 3600352804, 4094571909, 275423344,
   430227734, 506948616, 659060556, 883997877, 958139571, 1322822218, 1537002063, 1747873779,
   1955562222, 2024104815, 2227730452, 2361852424, 2428436474, 2756734187, 3204031479, 3329325298]

/-- SHA-256 initial hash value. -/
def sha256H0 : List Nat :=
  [1779033703, 3144134277, 1013904242, 2773480762,
   1359893119, 2600822924, 528734635, 1541459225]

/-- Small sigma 0. -/
def ssig0 (x : Nat) : Nat := (rotr32 7 x) ^^^ (rotr32 18 x) ^^^ (x >>> 3)

/-- Small sigma 1. -/
def ssig1 (x : Nat) : Nat := (rotr32 17 x) ^^^ (rotr32 19 x) ^^^ (x >>> 10)

/-- Big sigma 0. -/
def bsig0 (x : Nat) : Nat := (rotr32 2 x) ^^^ (rotr32 13 x) ^^^ (rotr32 22 x)

/-- Big sigma 1. -/
def bsig1 (x : Nat) : Nat := (rotr32 6 x) ^^^ (rotr32 11 x) ^^^ (rotr32 25 x)

/-- SHA-256 padding: append `0x80`, zero bytes to 56 mod 64, then the
bit length as an 8-byte big-endian integer. -/
def shaPad (msg : List Nat) : List Nat :=
  let len := msg.length
  let zeros := (64 + 56 - ((len + 1) % 64)) % 64
  let bitLen := 8 * len
  msg ++ [128] ++ List.replicate zeros 0 ++
    (List.range 8).map (fun i => (bitLen >>> (8 * (7 - i))) % 256)

/-- Group bytes into big-endian 32-bit words. -/
def bytesToWords : List Nat → List Nat
  | b₀ :: b₁ :: b₂ :: b₃ :: rest =>
    (((b₀ * 256 + b₁) * 256 + b₂) * 256 + b₃) :: bytesToWords rest
  | _ => []

/-- Extend the reversed 16-word block by `fuel` further schedule words. -/
def extendSched (acc : List Nat) : Nat → List Nat
  | 0 => acc
  | fuel + 1 =>
    let g := fun i => acc.getD i 0
    extendSched
      ((add32 (add32 (ssig1 (g 1)) (g 6)) (add32 (ssig0 (g 14)) (g 15))) :: acc) fuel

/-- The 64-word message schedule of one block. -/
def sha256Schedule (block : List Nat) : List Nat :=
  (extendSched block.reverse 48).reverse

/-- One SHA-256 round, updating the eight working variables. -/
def shaRound (st : List Nat) (w k : Nat) : List Nat :=
  match st with
  | [a, b, c, d, e, f, g, h] =>
    let ch := (e &&& f) ^^^ ((e ^^^ (M32 - 1)) &&& g)
    let maj := (a &&& b) ^^^ ((a &&& c) ^^^ (b &&& c))
    let t1 := add32 (add32 (add32 h (bsig1 e)) (add32 ch k)) w
    let t2 := add32 (bsig0 a) maj
    [add32 t1 t2, a, b, c, add32 d t1, e, f, g]
  | st => st

/-- Compress one 16-word block into the running hash. -/
def sha256Compress (H block : List Nat) : List Nat :=
  let final := ((sha256Schedule block).zip sha256K).foldl
    (fun st wk => shaRound st wk.1 wk.2) H
  (H.zip final).map (fun p => add32 p.1 p.2)

/-- Fold the compression function over all 16-word blocks. -/
def sha256Blocks (H : List Nat) : List Nat → List Nat
  | w₀ :: w₁ :: w₂ :: w₃ :: w₄ :: w₅ :: w₆ :: w₇ ::
    w₈ :: w₉ :: w₁₀ :: w₁₁ :: w₁₂ :: w₁₃ :: w₁₄ :: w₁₅ :: rest =>
    sha256Blocks
      (sha256Compress H [w₀, w₁, w₂, w₃, w₄, w₅, w₆, w₇,
                         w₈, w₉, w₁₀, w₁₁, w₁₂, w₁₃, w₁₄, w₁₅]) rest
  | _ => H

/-- SHA-256 digest of a byte list: 32 bytes. -/
def sha256 (msg : List Nat) : List Nat :=
  (sha256Blocks sha256H0 (bytesToWords (shaPad msg))).flatMap
    (fun w => [(w >>> 24) % 256, (w >>> 16) % 256, (w >>> 8) % 256, w % 256])

/-- SHA-256 digest rendered as 64 lowercase hex characters, as in
`hashValue` (`Array.from(new Uint8Array(hash)).map(toHex).join('')`) and
`createHash('sha256').digest('hex')`. -/
def sha256Hex (msg : List Nat) : List Char := bytesToHex (sha256 msg)

/-! ## AES-256

Full embedding of the AES-256 block cipher underlying Node's
`aes-256-gcm` used by `encrypt`/`decrypt` in the backend encryption
module.  The state is the flat 16-byte column-major list. -/

/-- The AES S-box. -/
def sBox : List Nat :=
  [99, 124, 119, 123, 242, 107, 111, 197, 48, 1, 103, 43, 254, 215, 171, 118,
   202, 130, 201, 125, 250, 89, 71, 240, 173, 212, 162, 175, 156, 164, 114, 192,
   183, 253, 147, 38, 54, 63, 247, 204, 52, 165, 229, 241, 113, 216, 49, 21,
   4, 199, 35, 195, 24, 150, 5, 154, 7, 18, 128, 226, 235, 39, 178, 117,
   9, 131, 44, 26, 27, 110, 90, 160, 82, 59, 214, 179, 41, 227, 47, 132,
   83, 209, 0, 237, 32, 252, 177, 91, 106, 203, 190, 57, 74, 76, 88, 207,
   208, 239, 170, 251, 67, 77, 51, 133, 69, 249, 2, 127, 80, 60, 159, 168,
   81, 163, 64, 143, 146, 157, 56, 245, 188, 182, 218, 33, 16, 255, 243, 210,
   205, 12, 19, 236, 95, 151, 68, 23, 196, 167, 126, 61, 100, 93, 25, 115,
   96, 129, 79, 220, 34, 42, 144, 136, 70, 238, 184, 20, 222, 94, 11, 219,
   224, 50, 58, 10, 73, 6, 36, 92, 194, 211, 172, 98, 145, 149, 228, 121,
   231, 200, 55, 109, 141, 213, 78, 169, 108, 86, 244, 234, 101, 122, 174, 8,
   186, 120, 37, 46, 28, 166, 180, 198, 232, 221, 116, 31, 75, 189, 139, 138,
   112, 62, 181, 102, 72, 3, 246, 14, 97, 53, 87, 185, 134, 193, 29, 158,
   225, 248, 152, 17, 105, 217, 142, 148, 155, 30, 135, 233, 206, 85, 40, 223,
   140, 161, 137, 13, 191, 230, 66, 104, 65, 153, 45, 15, 176, 84, 187, 22]

/-- S-box substitution of one byte. -/
def subByte (b : Nat) : Nat := sBox.getD b 0

/-- Multiplication by x in GF(2^8). -/
def xtime (x : Nat) : Nat := ((2 * x) ^^^ (if 128 ≤ x then 27 else 0)) % 256

/-- Multiplication by 3 in GF(2^8). -/
def gmul3 (x : Nat) : Nat := xtime x ^^^ x

/-- SubWord of the key schedule, on a 32-bit word. -/
def subWord (w : Nat) : Nat :=
  (subByte ((w >>> 24) % 256)) <<< 24 ||| (subByte ((w >>> 16) % 256)) <<< 16 |||
  (subByte ((w >>> 8) % 256)) <<< 8 ||| subByte (w % 256)

/-- RotWord of the key schedule. -/
def rotWord (w : Nat) : Nat := ((w <<< 8) % M32) ||| (w >>> 24)

/-- The round constants used by AES-256 key expansion. -/
def aesRcon : List Nat := [1, 2, 4, 8, 16, 32, 64]

/-- AES-256 key expansion; `acc` holds the words produced so far,
newest first, and `fuel` counts the words still to produce. -/
def expandKeyAux (acc : List Nat) : Nat → List Nat
  | 0 => acc.reverse
  | fuel + 1 =>
    let i := acc.length
    let prev := acc.getD 0 0
    let w8 := acc.getD 7 0
    let t :=
      if i % 8 = 0 then (subWord (rotWord prev)) ^^^ ((aesRcon.getD (i / 8 - 1) 0) <<< 24)
      else if i % 8 = 4 then subWord prev
      else prev
    expandKeyAux ((w8 ^^^ t) :: acc) fuel

/-- The 60 words of the expanded AES-256 key, from the 32 key bytes. -/
def expandKey (key : List Nat) : List Nat :=
  expandKeyAux (bytesToWords key).reverse 52

/-- Big-endian bytes of a 32-bit word. -/
def wordToBytes (w : Nat) : List Nat :=
  [(w >>> 24) % 256, (w >>> 16) % 256, (w >>> 8) % 256, w % 256]

/-- The 16 bytes of round key `r`. -/
def roundKeyBytes (ws : List Nat) (r : Nat) : List Nat :=
  ((ws.drop (4 * r)).take 4).flatMap wordToBytes

/-- AddRoundKey. -/
def addRoundKey (st rk : List Nat) : List Nat := List.zipWith (· ^^^ ·) st rk

/-- SubBytes. -/
def subBytes (st : List Nat) : List Nat := st.map subByte

/-- ShiftRows on the flat column-major state. -/
def shiftRows (st : List Nat) : List Nat :=
  match st with
  | [a0, a1, a2, a3, a4, a5, a6, a7, a8, a9, a10, a11, a12, a13, a14, a15] =>
    [a0, a5, a10, a15, a4, a9, a14, a3, a8, a13, a2, a7, a12, a1, a6, a11]
  | st => st

/-- MixColumns on one column. -/
def mixCol (c : List Nat) : List Nat :=
  match c with
  | [s0, s1, s2, s3] =>
    [xtime s0 ^^^ gmul3 s1 ^^^ s2 ^^^ s3,
     s0 ^^^ xtime s1 ^^^ gmul3 s2 ^^^ s3,
     s0 ^^^ s1 ^^^ xtime s2 ^^^ gmul3 s3,
     gmul3 s0 ^^^ s1 ^^^ s2 ^^^ xtime s3]
  | c => c

/-- MixColumns on the flat state. -/
def mixColumns (st : List Nat) : List Nat :=
  match st with
  | [a0, a1, a2, a3, a4, a5, a6, a7, a8, a9, a10, a11, a12, a13, a14, a15] =>
    mixCol [a0, a1, a2, a3] ++ mixCol [a4, a5, a6, a7] ++
    mixCol [a8, a9, a10, a11] ++ mixCol [a12, a13, a14, a15]
  | st => st

/-- The 13 middle AES-256 rounds. -/
def aesMainRounds (ws : List Nat) (st : List Nat) : List Nat :=
  (List.range 13).foldl
    (fun st r => addRoundKey (mixColumns (shiftRows (subBytes st))) (roundKeyBytes ws (r + 1)))
    st

/-- AES-256 encryption of one 16-byte block. -/
def aesEncryptBlock (key input : List Nat) : List Nat :=
  let ws := expandKey key
  let st := aesMainRounds ws (addRoundKey input (roundKeyBytes ws 0))
  addRoundKey (shiftRows (subBytes st)) (roundKeyBytes ws 14)

/-! ## GCM mode (`aes-256-gcm`) -/

/-- Big-endian value of a byte list. -/
def bytesToNat (bs : List Nat) : Nat := bs.foldl (fun a b => a * 256 + b) 0

/-- The 16 big-endian bytes of a 128-bit value. -/
def natToBytes16 (n : Nat) : List Nat :=
  (List.range 16).map (fun i => (n >>> (8 * (15 - i))) % 256)

/-- AES-256 on a 128-bit block value. -/
def aesBlockN (key : List Nat) (blk : Nat) : Nat :=
  bytesToNat (aesEncryptBlock key (natToBytes16 blk))

/-- The GHASH reduction constant R = 0xe1 followed by 15 zero bytes. -/
def gcmR : Nat := 225 <<< 120

/-- Carry-less multiplication in GF(2^128) (GHASH's block multiplication). -/
def gfMul (x y : Nat) : Nat :=
  ((List.range 128).foldl
    (fun zv i =>
      let z := if (x >>> (127 - i)) % 2 = 1 then zv.1 ^^^ zv.2 else zv.1
      let v := if zv.2 % 2 = 1 then (zv.2 >>> 1) ^^^ gcmR else zv.2 >>> 1
      (z, v))
    ((0, y) : Nat × Nat)).1

/-- GHASH accumulation over full 16-byte blocks. -/
def ghashCore (h y : Nat) : List Nat → Nat
  | b0 :: b1 :: b2 :: b3 :: b4 :: b5 :: b6 :: b7 ::
    b8 :: b9 :: b10 :: b11 :: b12 :: b13 :: b14 :: b15 :: rest =>
    ghashCore h
      (gfMul (y ^^^ bytesToNat [b0, b1, b2, b3, b4, b5, b6, b7,
                                b8, b9, b10, b11, b12, b13, b14, b15]) h)
      rest
  | _ => y

/-- GHASH of the ciphertext with empty AAD: zero-pad to a block
boundary, then absorb the length block `len(A)=0 || len(C)` in bits. -/
def ghash (h : Nat) (data : List Nat) : Nat :=
  let padded := data ++ List.replicate ((16 - data.length % 16) % 16) 0
  ghashCore h (ghashCore h 0 padded) (natToBytes16 (8 * data.length))

/-- Replace the low 32 bits of a 128-bit block. -/
def withLow32 (n low : Nat) : Nat := ((n >>> 32) <<< 32) ||| (low % M32)

/-- The pre-counter block J0 for a 12-byte IV: `IV || 0^31 || 1`. -/
def gcmJ0 (iv : List Nat) : Nat := (bytesToNat iv) <<< 32 ||| 1

/-- The first `n` bytes of the GCM CTR keystream (counters J0+1, J0+2, …,
incremented in the low 32 bits). -/
def gcmKeystream (key iv : List Nat) (n : Nat) : List Nat :=
  let j0 := gcmJ0 iv
  (((List.range ((n + 15) / 16)).flatMap
    (fun i => natToBytes16 (aesBlockN key (withLow32 j0 ((j0 % M32) + 1 + i))))).take n)

/-- GCM ciphertext bytes: plaintext XOR keystream. -/
def gcmCt (key iv pt : List Nat) : List Nat :=
  List.zipWith (· ^^^ ·) pt (gcmKeystream key iv pt.length)

/-- GCM authentication tag (16 bytes) over a ciphertext, with empty AAD. -/
def gcmTag (key iv ct : List Nat) : List Nat :=
  let h := aesBlockN key (List.replicate 16 0 |> bytesToNat)
  natToBytes16 (ghash h ct ^^^ aesBlockN key (gcmJ0 iv))

/-! ## Backend encryption module (`src/backend/src/utils/encryption.js`) -/

/-- Prepend a character to the first group of a split result. -/
def consHead (c : Char) : List (List Char) → List (List Char)
  | g :: gs => (c :: g) :: gs
  | [] => [[c]]

/-- `String.prototype.split(':')` on a JS string modelled as `List Char`. -/
def splitColon : List Char → List (List Char)
  | [] => [[]]
  | c :: rest =>
    if c = ':' then [] :: splitColon rest else consHead c (splitColon rest)

/-- `encrypt(text)`: `null` on a falsy (empty) input, otherwise the token
`iv.toString('hex') + ':' + authTag.toString('hex') + ':' + encrypted`.
The random 12-byte `iv` (`crypto.randomBytes(12)`) and the process-wide
32-byte `ENCRYPTION_KEY` are explicit parameters; the plaintext is its
byte (UTF-8) sequence. -/
def encrypt (iv key text : List Nat) : Option (List Char) :=
  if text = [] then none
  else
    let ct := gcmCt key iv text
    some (bytesToHex iv ++ (':' :: (bytesToHex (gcmTag key iv ct) ++ (':' :: bytesToHex ct))))

/-- `decrypt(encryptedText)`: `null` on falsy input; splits on `:` into
`[ivHex, authTagHex, encrypted]` (any later parts are dropped by the
destructuring), decodes the hex, and decrypts.  A missing part or an
authentication-tag mismatch makes the decipher throw, modelled `none`. -/
def decrypt (key : List Nat) (encryptedText : Option (List Char)) : Option (List Nat) :=
  match encryptedText with
  | none => none
  | some s =>
    if s = [] then none
    else
      match splitColon s with
      | ivHex :: authTagHex :: encryptedPart :: _ =>
        let iv := hexToBytes ivHex
        let authTag := hexToBytes authTagHex
        let ct := hexToBytes encryptedPart
        if gcmTag key iv ct = authTag then
          some (List.zipWith (· ^^^ ·) ct (gcmKeystream key iv ct.length))
        else none
      | _ => none

/-- Backend `hash(text)`: `null` on a falsy (empty) input, else the
SHA-256 digest rendered as lowercase hex. -/
def hash (text : List Nat) : Option (List Char) :=
  if text = [] then none else some (sha256Hex text)

/-! ## Frontend hashing (`PrivacyEnhancer.hashValue`) -/

/-- UTF-8 encoding of one character (`TextEncoder.prototype.encode`). -/
def utf8EncodeChar (c : Char) : List Nat :=
  let n := c.toNat
  if n < 128 then [n]
  else if n < 2048 then [192 + n / 64, 128 + n % 64]
  else if n < 65536 then [224 + n / 4096, 128 + (n / 64) % 64, 128 + n % 64]
  else [240 + n / 262144, 128 + (n / 4096) % 64, 128 + (n / 64) % 64, 128 + n % 64]

/-- UTF-8 encoding of a JS string. -/
def utf8Encode (s : List Char) : List Nat := s.flatMap utf8EncodeChar

/-- Frontend `hashValue(value)`: UTF-8 encode, SHA-256 via
`crypto.subtle.digest`, then lowercase hex (no falsy guard). -/
def hashValue (value : List Char) : List Char := sha256Hex (utf8Encode value)

/-! ## Lemmas about hex, split and the GCM primitives -/

/-- The sixteen lowercase hex digits. -/
def lowerHexDigits : List Char :=
  '0' :: '1' :: '2' :: '3' :: '4' :: '5' :: '6' :: '7' ::
    '8' :: '9' :: 'a' :: 'b' :: 'c' :: 'd' :: 'e' :: ['f']

theorem hexVal_hexChar : ∀ n < 16, hexVal (hexChar n) = some n := by decide

theorem hexChar_mem_lowerHexDigits (n : Nat) : hexChar n ∈ lowerHexDigits := by
  by_cases h : n < 16
  · interval_cases n <;> decide
  · have hf : hexChar n = 'f' := by
      unfold hexChar
      repeat rw [if_neg (by omega)]
    rw [hf]
    decide

theorem hexChar_ne_colon (n : Nat) : hexChar n ≠ ':' := by
  intro h
  have hm := hexChar_mem_lowerHexDigits n
  rw [h] at hm
  simp [lowerHexDigits] at hm

theorem mem_bytesToHex_ne_colon {c : Char} {bs : List Nat} (h : c ∈ bytesToHex bs) :
    c ≠ ':' := by
  simp only [bytesToHex, List.mem_flatMap, byteToHex] at h
  obtain ⟨b, -, hc⟩ := h
  simp only [List.mem_cons, List.not_mem_nil, or_false] at hc
  rcases hc with rfl | rfl
  · exact hexChar_ne_colon _
  · exact hexChar_ne_colon _

theorem consHead_ne_nil (c : Char) (gs : List (List Char)) : consHead c gs ≠ [] := by
  cases gs <;> simp [consHead]

theorem splitColon_ne_nil (l : List Char) : splitColon l ≠ [] := by
  cases l with
  | nil => simp [splitColon]
  | cons c rest =>
    simp only [splitColon]
    split
    · simp
    · exact consHead_ne_nil _ _

theorem splitColon_cons_of_ne {c : Char} (hc : c ≠ ':') (l : List Char) :
    splitColon (c :: l) = consHead c (splitColon l) := by
  simp [splitColon, hc]

theorem splitColon_no_colon {l : List Char} (h : ∀ c ∈ l, c ≠ ':') :
    splitColon l = [l] := by
  induction l with
  | nil => rfl
  | cons c rest ih =>
    have hc : c ≠ ':' := h c (List.mem_cons_self c rest)
    have hrest : splitColon rest = [rest] := ih (fun x hx => h x (List.mem_cons_of_mem c hx))
    rw [splitColon_cons_of_ne hc, hrest]
    rfl

theorem splitColon_append {xs : List Char} (h : ∀ c ∈ xs, c ≠ ':') (rest : List Char) :
    splitColon (xs ++ ':' :: rest) = xs :: splitColon rest := by
  induction xs with
  | nil => simp [splitColon]
  | cons c xs ih =>
    have hc : c ≠ ':' := h c (List.mem_cons_self c xs)
    have htail := ih (fun x hx => h x (List.mem_cons_of_mem c hx))
    rw [List.cons_append, splitColon_cons_of_ne hc, htail]
    rfl

theorem hexToBytes_bytesToHex {bs : List Nat} (h : ∀ b ∈ bs, b < 256) :
    hexToBytes (bytesToHex bs) = bs := by
  induction bs with
  | nil => rfl
  | cons b bs ih =>
    have hb : b < 256 := h b (List.mem_cons_self b bs)
    have hdiv : b / 16 < 16 := by omega
    have hmod : b % 16 < 16 := by omega
    have htail := ih (fun x hx => h x (List.mem_cons_of_mem b hx))
    have hshape : bytesToHex (b :: bs) =
        hexChar (b / 16) :: hexChar (b % 16) :: bytesToHex bs := by
      simp [bytesToHex, byteToHex]
    rw [hshape]
    unfold hexToBytes
    rw [hexVal_hexChar _ hdiv, hexVal_hexChar _ hmod]
    simp only
    rw [htail]
    congr 1
    omega

theorem length_natToBytes16 (n : Nat) : (natToBytes16 n).length = 16 := by
  simp [natToBytes16]

theorem mem_natToBytes16 {b n : Nat} (h : b ∈ natToBytes16 n) : b < 256 := by
  simp only [natToBytes16, List.mem_map] at h
  obtain ⟨i, -, hb⟩ := h
  omega

theorem length_flatMap_const {α β : Type} (f : α → List β) (k : Nat)
    (h : ∀ a, (f a).length = k) : ∀ l : List α, (l.flatMap f).length = k * l.length
  | [] => by simp
  | a :: l => by
    simp only [List.flatMap_cons, List.length_append, h a,
      length_flatMap_const f k h l, List.length_cons, Nat.mul_succ]
    omega

theorem length_gcmKeystream (key iv : List Nat) (n : Nat) :
    (gcmKeystream key iv n).length = n := by
  simp only [gcmKeystream, List.length_take]
  rw [length_flatMap_const _ 16 (fun i => length_natToBytes16 _), List.length_range]
  omega

theorem mem_gcmKeystream {b : Nat} {key iv : List Nat} {n : Nat}
    (h : b ∈ gcmKeystream key iv n) : b < 256 := by
  simp only [gcmKeystream] at h
  have h' := List.mem_of_mem_take h
  simp only [List.mem_flatMap] at h'
  obtain ⟨i, -, hb⟩ := h'
  exact mem_natToBytes16 hb

theorem mem_gcmTag {b : Nat} {key iv ct : List Nat} (h : b ∈ gcmTag key iv ct) :
    b < 256 := mem_natToBytes16 h

theorem length_gcmCt (key iv pt : List Nat) : (gcmCt key iv pt).length = pt.length := by
  simp [gcmCt, length_gcmKeystream]

theorem zipWith_xor_bound : ∀ (pt ks : List Nat), (∀ b ∈ pt, b < 256) →
    (∀ b ∈ ks, b < 256) → ∀ b ∈ List.zipWith (· ^^^ ·) pt ks, b < 256
  | [], _, _, _ => by simp
  | _ :: _, [], _, _ => by simp
  | p :: pt, k :: ks, hp, hk => by
    intro b hb
    simp only [List.zipWith_cons_cons, List.mem_cons] at hb
    rcases hb with rfl | hb
    · have h1 : p < 256 := hp p (List.mem_cons_self _ _)
      have h2 : k < 256 := hk k (List.mem_cons_self _ _)
      calc p ^^^ k < 2 ^ 8 := Nat.xor_lt_two_pow h1 h2
        _ = 256 := by norm_num
    · exact zipWith_xor_bound pt ks (fun x hx => hp x (List.mem_cons_of_mem _ hx))
        (fun x hx => hk x (List.mem_cons_of_mem _ hx)) b hb

theorem mem_gcmCt {b : Nat} {key iv pt : List Nat} (hpt : ∀ x ∈ pt, x < 256)
    (h : b ∈ gcmCt key iv pt) : b < 256 :=
  zipWith_xor_bound pt _ hpt (fun _ hx => mem_gcmKeystream hx) b h

theorem zipWith_xor_cancel : ∀ (pt ks : List Nat), pt.length ≤ ks.length →
    List.zipWith (· ^^^ ·) (List.zipWith (· ^^^ ·) pt ks) ks = pt
  | [], _, _ => by simp
  | p :: pt, [], h => by simp at h
  | p :: pt, k :: ks, h => by
    simp only [List.zipWith_cons_cons]
    rw [Nat.xor_cancel_right, zipWith_xor_cancel pt ks (by simpa using h)]

/-- Round trip of the GCM construction shared by `encrypt` and `decrypt`:
decrypting an `encrypt` token under the same key recovers the plaintext. -/
theorem gcm_encrypt_decrypt (iv key pt : List Nat) (hpt : pt ≠ [])
    (hptb : ∀ b ∈ pt, b < 256) (hivb : ∀ b ∈ iv, b < 256) :
    decrypt key (encrypt iv key pt) = some pt := by
  have hivhex : ∀ c ∈ bytesToHex iv, c ≠ ':' := fun c hc => mem_bytesToHex_ne_colon hc
  have htaghex : ∀ c ∈ bytesToHex (gcmTag key iv (gcmCt key iv pt)), c ≠ ':' :=
    fun c hc => mem_bytesToHex_ne_colon hc
  have hcthex : ∀ c ∈ bytesToHex (gcmCt key iv pt), c ≠ ':' :=
    fun c hc => mem_bytesToHex_ne_colon hc
  have hsplit : splitColon (bytesToHex iv ++ (':' ::
      (bytesToHex (gcmTag key iv (gcmCt key iv pt)) ++
        (':' :: bytesToHex (gcmCt key iv pt))))) =
      [bytesToHex iv, bytesToHex (gcmTag key iv (gcmCt key iv pt)),
       bytesToHex (gcmCt key iv pt)] := by
    rw [splitColon_append hivhex, splitColon_append htaghex, splitColon_no_colon hcthex]
  have hivrt : hexToBytes (bytesToHex iv) = iv := hexToBytes_bytesToHex hivb
  have htagrt : hexToBytes (bytesToHex (gcmTag key iv (gcmCt key iv pt))) =
      gcmTag key iv (gcmCt key iv pt) :=
    hexToBytes_bytesToHex (fun b hb => mem_gcmTag hb)
  have hctrt : hexToBytes (bytesToHex (gcmCt key iv pt)) = gcmCt key iv pt :=
    hexToBytes_bytesToHex (fun b hb => mem_gcmCt hptb hb)
  have htok_ne : bytesToHex iv ++ (':' ::
      (bytesToHex (gcmTag key iv (gcmCt key iv pt)) ++
        (':' :: bytesToHex (gcmCt key iv pt)))) ≠ ([] : List Char) := by simp
  simp only [encrypt, if_neg hpt, decrypt, if_neg htok_ne, hsplit, hivrt, htagrt, hctrt,
    if_pos rfl, length_gcmCt]
  rw [gcmCt, zipWith_xor_cancel pt _ (by rw [length_gcmKeystream])]
  exact if_pos trivial

/-! ## JS values and property objects

Event `properties` are JS objects: ordered association lists with unique
keys.  The value domain is restricted to the scalars the pipeline
handles. -/

/-- A JS property value. -/
inductive JSValue where
  | vStr : String → JSValue
  | vNum : Int → JSValue
  | vBool : Bool → JSValue
deriving DecidableEq, Repr

/-- A JS object of event properties. -/
abbrev Props : Type := List (String × JSValue)

/-- JS truthiness of `obj[k]` (absent, `''`, `0` and `false` are falsy). -/
def truthy : Option JSValue → Bool
  | none => false
  | some (.vStr s) => s ≠ ""
  | some (.vNum n) => n ≠ 0
  | some (.vBool b) => b

/-- `String(value)` coercion. -/
def toJSString : JSValue → String
  | .vStr s => s
  | .vNum n => toString n
  | .vBool b => if b then "true" else "false"

/-- Property lookup `obj[k]` (first binding wins, as in a JS object
where keys are unique). -/
def getProp : Props → String → Option JSValue
  | [], _ => none
  | kv :: rest, k => if kv.1 = k then some kv.2 else getProp rest k

/-- `delete obj[k]`. -/
def delProp (p : Props) (k : String) : Props :=
  p.filter (fun kv => kv.1 ≠ k)

/-- `obj[k] = v` (updates in place, appends when the key is new). -/
def setProp (p : Props) (k : String) (v : JSValue) : Props :=
  if p.any (fun kv => kv.1 = k) then
    p.map (fun kv => if kv.1 = k then (k, v) else kv)
  else p ++ [(k, v)]

/-- The keys of a property object. -/
def propKeys (p : Props) : List String := p.map (fun kv => kv.1)

/-! ## URL model

Embedding of the WHATWG `URL` / `URLSearchParams` behaviour that
`sanitizeProperties` and `validateConfig` exercise, restricted to
absolute URLs of the shape `scheme://host[/path][?query][#fragment]`
(userinfo and ports stay inside `host`; no percent-decoding). -/

/-- A parsed URL. -/
structure JSURL where
  scheme : List Char
  host : List Char
  path : List Char
  query : List Char
  fragment : Option (List Char)
deriving DecidableEq, Repr

/-- Characters allowed in a scheme. -/
def isSchemeChar (c : Char) : Bool := c.isAlpha || c.isDigit || c = '+' || c = '-' || c = '.'

/-- `new URL(s)`: `none` models the thrown `TypeError`. -/
def parseURL (s : List Char) : Option JSURL :=
  let scheme := s.takeWhile isSchemeChar
  let rest := s.drop scheme.length
  match scheme.head? with
  | none => none
  | some c₀ =>
    if ¬ c₀.isAlpha then none
    else
      match rest with
      | ':' :: '/' :: '/' :: rest₂ =>
        let host := rest₂.takeWhile (fun c => c ≠ '/' && c ≠ '?' && c ≠ '#')
        let rest₃ := rest₂.drop host.length
        if host = [] then none
        else
          let pathRaw := rest₃.takeWhile (fun c => c ≠ '?' && c ≠ '#')
          let rest₄ := rest₃.drop pathRaw.length
          let path := if pathRaw = [] then ['/'] else pathRaw
          match rest₄ with
          | '?' :: qf =>
            let query := qf.takeWhile (fun c => c ≠ '#')
            let rest₅ := qf.drop query.length
            match rest₅ with
            | '#' :: f =>
              some ⟨scheme.map Char.toLower, host.map Char.toLower, path, query, some f⟩
            | _ => some ⟨scheme.map Char.toLower, host.map Char.toLower, path, query, none⟩
          | '#' :: f =>
            some ⟨scheme.map Char.toLower, host.map Char.toLower, path, [], some f⟩
          | _ => some ⟨scheme.map Char.toLower, host.map Char.toLower, path, [], none⟩
      | _ => none

/-- `url.toString()` / `url.href`. -/
def urlToString (u : JSURL) : List Char :=
  u.scheme ++ (':' :: '/' :: '/' :: (u.host ++ u.path ++
    (if u.query = [] then [] else '?' :: u.query) ++
    (match u.fragment with | none => [] | some f => '#' :: f)))

/-- `url.protocol` (scheme plus the trailing colon). -/
def urlProtocol (u : JSURL) : List Char := u.scheme ++ [':']

/-- Generic single-character split (for `&`). -/
def splitOnChar (sep : Char) : List Char → List (List Char)
  | [] => [[]]
  | c :: rest =>
    if c = sep then [] :: splitOnChar sep rest else consHead c (splitOnChar sep rest)

/-- `new URLSearchParams(q)`: split on `&`, drop empty segments, split
each segment at its first `=` (missing value gives `''`). -/
def parseParams (q : List Char) : List (List Char × List Char) :=
  ((splitOnChar '&' q).filter (fun seg => seg ≠ [])).map fun seg =>
    (seg.takeWhile (fun c => c ≠ '='), ((seg.dropWhile (fun c => c ≠ '=')).drop 1))

/-- `params.toString()`: `k=v` pairs joined by `&`. -/
def serializeParams : List (List Char × List Char) → List Char
  | [] => []
  | [p] => p.1 ++ '=' :: p.2
  | p :: ps => p.1 ++ ('=' :: (p.2 ++ '&' :: serializeParams ps))

/-- The five tracking parameter names. -/
def trackingParams : List String :=
  ["utm_source", "utm_medium", "utm_campaign", "utm_term", "utm_content"]

/-- The tracking parameter names as character lists. -/
def trackingParamsChars : List (List Char) := trackingParams.map String.toList

/-- `String.prototype.replace(/\/$/, '')`: drop one trailing slash. -/
def stripTrailingSlash (l : List Char) : List Char :=
  if l.getLast? = some '/' then l.dropLast else l

/-- The URL-cleaning branch of `sanitizeProperties`: parse, delete the
tracking params from the query, reserialize, drop one trailing slash;
`none` when `new URL` throws (the caller keeps the original value). -/
def cleanUrl (s : List Char) : Option (List Char) :=
  match parseURL s with
  | none => none
  | some u =>
    let ps := (parseParams u.query).filter (fun kv => kv.1 ∉ trackingParamsChars)
    some (stripTrailingSlash (urlToString { u with query := serializeParams ps }))

/-! ## The frontend sanitizer (`PrivacyEnhancer.sanitizeProperties`) -/

/-- The PII field names deleted by the sanitizer (exact keys). -/
def piiFields : List String :=
  ["email", "phone", "name", "address", "ip", "password", "ssn"]

/-- The sensitive id keys hashed when `hashUserIds` is set. -/
def sensitiveIds : List String := ["userId", "customerId", "accountId"]

/-- One iteration of the sensitive-id loop: hash the field in place when
it is present and truthy. -/
def hashSensitiveStep (s : Props) (f : String) : Props :=
  match getProp s f with
  | some v =>
    if truthy (some v) then
      setProp s f (.vStr (String.mk (hashValue (toJSString v).toList)))
    else s
  | none => s

/-- The `if (sanitized.url)` block: clean a truthy `url` through
`new URL`, keeping the original value when parsing throws. -/
def urlCleanStep (s : Props) : Props :=
  match getProp s "url" with
  | some v =>
    if truthy (some v) then
      match cleanUrl (toJSString v).toList with
      | some cleaned => setProp s "url" (.vStr (String.mk cleaned))
      | none => s
    else s
  | none => s

/-- `PrivacyEnhancer.sanitizeProperties(properties)`; `hashUserIds` is
the instance configuration (default `true`). -/
def sanitizeProperties (hashUserIds : Bool) (properties : Props) : Props :=
  let sanitized := properties
  let sanitized := piiFields.foldl delProp sanitized
  let sanitized :=
    if hashUserIds then sensitiveIds.foldl hashSensitiveStep sanitized else sanitized
  let sanitized := trackingParams.foldl delProp sanitized
  urlCleanStep sanitized

/-! ## Backend input sanitization (`src/backend/src/utils/sanitization.js`) -/

/-- `validator.escape`: HTML-entity escaping of one character. -/
def escapeChar (c : Char) : List Char :=
  if c = '&' then "&amp;".toList
  else if c = '<' then "&lt;".toList
  else if c = '>' then "&gt;".toList
  else if c = '"' then "&quot;".toList
  else if c = '\'' then "&#x27;".toList
  else if c = '/' then "&#x2F;".toList
  else if c = '\\' then "&#x5C;".toList
  else if c = '`' then "&#96;".toList
  else [c]

/-- `validator.trim`: strip leading and trailing whitespace. -/
def jsTrim (s : List Char) : List Char :=
  ((s.dropWhile Char.isWhitespace).reverse.dropWhile Char.isWhitespace).reverse

/-- `sanitizeInput` on a string: trim, strip control characters
(`validator.stripLow`), escape HTML entities (`validator.escape`). -/
def sanitizeInputStr (s : String) : String :=
  String.mk (((jsTrim s.toList).filter
    (fun c => !(c.toNat < 32 || c.toNat = 127))).flatMap escapeChar)

/-- `sanitizeInput` on a property value (numbers and booleans pass
through unchanged). -/
def sanitizeInput : JSValue → JSValue
  | .vStr s => .vStr (sanitizeInputStr s)
  | v => v

/-! ## Backend event storage (`DatabaseService.storeEvent`) -/

/-- `sub` occurs inside `hay` (JS `String.prototype.includes`). -/
def strIncludes (hay sub : String) : Bool := decide (sub.toList <:+: hay.toList)

/-- `String.prototype.toLowerCase()` (character-wise). -/
def jsToLower (s : String) : String := String.mk (s.toList.map Char.toLower)

/-- The key filter applied by `storeEvent` before stringifying
`properties`: drops keys whose lowercase form contains `email`, `phone`,
`address` or `name`. -/
def backendKeyKept (k : String) : Bool :=
  let key := jsToLower k
  !(strIncludes key "email") && !(strIncludes key "phone") &&
  !(strIncludes key "address") && !(strIncludes key "name")

/-- The `properties` object whose `JSON.stringify` image `storeEvent`
persists: filter on the original key, then sanitize keys and values. -/
def storeEventProps (properties : Props) : Props :=
  (properties.filter (fun kv => backendKeyKept kv.1)).map
    (fun kv => (sanitizeInputStr kv.1, sanitizeInput kv.2))

/-- An event as accepted by `storeEvent`; the sensitive fields carry the
raw byte sequences of their string values. -/
structure EventIn where
  siteId : String
  type : String
  properties : Props
  ip : Option (List Nat)
  userAgent : Option (List Nat)
  sessionId : Option (List Nat)
  timestamp : Int
deriving DecidableEq, Repr

/-- A stored event row (its `properties` column holds the
`JSON.stringify` of the `properties` object recorded here). -/
structure StoredEvent where
  siteId : String
  type : String
  properties : Props
  ip : Option (List Char)
  userAgent : Option (List Char)
  sessionId : Option (List Char)
  timestamp : Int
deriving DecidableEq, Repr

/-- `x ? await encrypt(x) : null` on an optional field. -/
def encryptField (iv key : List Nat) (v : Option (List Nat)) : Option (List Char) :=
  match v with
  | some b => if b = [] then none else encrypt iv key b
  | none => none

/-- `DatabaseService.storeEvent`: sanitize `siteId`/`type`, filter and
sanitize `properties`, encrypt the sensitive fields.  Each `encrypt`
call draws a fresh random IV, passed explicitly. -/
def storeEvent (key iv₁ iv₂ iv₃ : List Nat) (e : EventIn) : StoredEvent :=
  { siteId := sanitizeInputStr e.siteId
    type := sanitizeInputStr e.type
    properties := storeEventProps e.properties
    ip := encryptField iv₁ key e.ip
    userAgent := encryptField iv₂ key e.userAgent
    sessionId := encryptField iv₃ key e.sessionId
    timestamp := e.timestamp }

/-! ## The `POST /events` handler (backend server) -/

/-- `x ? await hash(x) : null`: SHA-256 hex of a header value, as a byte
sequence (the hex string is ASCII). -/
def hashField (v : Option (List Nat)) : Option (List Nat) :=
  match v with
  | some b => if b = [] then none else some (utf8Encode (sha256Hex b))
  | none => none

/-- The `POST /events` handler: hashes the transport `ip` and
`userAgent`, passes the body `sessionId` through, and stores. -/
def postEvents (key iv₁ iv₂ iv₃ : List Nat) (siteId tp : String) (props : Props)
    (ip ua sid : Option (List Nat)) (ts : Int) : StoredEvent :=
  storeEvent key iv₁ iv₂ iv₃
    { siteId := siteId, type := tp, properties := props,
      ip := hashField ip, userAgent := hashField ua, sessionId := sid, timestamp := ts }

/-! ## GDPR erasure (`DELETE /events/:siteId`) -/

/-- The `deleteMany` predicate built by the handler for a `sessionId`
query: `siteId` matches and the stored `sessionId` column equals
`hash(sessionId)`. -/
def gdprSessionPredicate (siteId : String) (sid : List Nat) (e : StoredEvent) : Bool :=
  e.siteId = siteId && e.sessionId = some (sha256Hex sid)

/-- `deleteMany` for the GDPR `sessionId` branch: the surviving rows and
the deleted count. -/
def gdprDeleteBySession (events : List StoredEvent) (siteId : String) (sid : List Nat) :
    List StoredEvent × Nat :=
  (events.filter (fun e => !gdprSessionPredicate siteId sid e),
   (events.filter (gdprSessionPredicate siteId sid)).length)

/-! ## Retention sweep (`DatabaseService.cleanupOldEvents`) -/

/-- A site row. -/
structure Site where
  siteId : String
  retentionDays : Int
deriving DecidableEq, Repr

/-- Milliseconds per day. -/
def msPerDay : Int := 86400000

/-- Does the per-site `deleteMany` predicate match this event:
same `siteId` and `timestamp < now - retentionDays` (in ms)? -/
def evtExpired (now : Int) (s : Site) (e : StoredEvent) : Bool :=
  e.siteId = s.siteId && e.timestamp < now - s.retentionDays * msPerDay

/-- One `deleteMany({siteId, timestamp: {lt: cutoffDate}})` call:
surviving rows and the deleted count. -/
def deleteManyExpired (now : Int) (s : Site) (events : List StoredEvent) :
    List StoredEvent × Nat :=
  (events.filter (fun e => !evtExpired now s e),
   (events.filter (evtExpired now s)).length)

/-- `cleanupOldEvents`: for every site delete its expired events,
accumulating `totalDeleted`. -/
def cleanupOldEvents (now : Int) (sites : List Site) (events : List StoredEvent) :
    Nat × List StoredEvent :=
  sites.foldl
    (fun acc site =>
      let r := deleteManyExpired now site acc.2
      (acc.1 + r.2, r.1))
    (0, events)

/-! ## Frontend validation (`src/frontend/src/core/validation.js`) -/

/-- One character of `/^[a-zA-Z0-9_]+$/`. -/
def isValidNameChar (c : Char) : Bool := c.isAlpha || c.isDigit || c = '_'

/-- `VALID_EVENT_NAME_PATTERN.test(s)`. -/
def validNamePattern (s : String) : Bool := s ≠ "" && s.toList.all isValidNameChar

/-- `validateEventName`: throws (`Except.error` carries the message). -/
def validateEventName (eventName : String) : Except String Unit :=
  if eventName = "" then .error "Event name must be a non-empty string"
  else if eventName.length > 100 then .error "Event name must not exceed 100 characters"
  else if !validNamePattern eventName then
    .error "Event name must contain only letters, numbers, and underscores"
  else .ok ()

/-- The per-entry loop of `validateProperties`. -/
def validatePropsEntries : List (String × JSValue) → Except String Unit
  | [] => .ok ()
  | (k, v) :: rest =>
    if !validNamePattern k then
      .error "Property key must contain only letters, numbers, and underscores"
    else if (toJSString v).length > 1000 then
      .error "Property value must not exceed 1000 characters"
    else validatePropsEntries rest

/-- `validateProperties` (the argument is an object by construction). -/
def validateProperties (properties : Props) : Except String Unit :=
  if properties.length > 100 then .error "Properties count must not exceed 100"
  else validatePropsEntries properties

/-! ## Frontend configuration validation and `BaseAnalytics` -/

/-- The configuration object passed to the `BaseAnalytics` constructor. -/
structure ClientConfig where
  siteId : Option JSValue
  endpoint : Option String
  consentRequired : Option JSValue
  hashUserIds : Option JSValue
  automaticPageViews : Option JSValue
deriving DecidableEq, Repr

/-- The body of the `try` block in `validateConfig`: `new URL(endpoint)`
(throws on a parse failure), then the HTTPS check
(`url.protocol.startsWith('https')`). -/
def checkEndpoint (endpoint : String) : Except String Unit :=
  match parseURL endpoint.toList with
  | none => .error "TypeError"
  | some u =>
    if !("https".toList.isPrefixOf (urlProtocol u)) then
      .error "API endpoint must use HTTPS"
    else .ok ()

/-- One `flag in config && typeof config[flag] !== 'boolean'` check. -/
def flagOk : Option JSValue → Bool
  | none => true
  | some (.vBool _) => true
  | some _ => false

/-- The `if (config.endpoint) { try … } catch { … }` block: the `catch`
replaces any error thrown inside the `try` (including the HTTPS error)
with `Invalid API endpoint URL`; a falsy endpoint skips the check. -/
def endpointGate (endpoint : Option String) : Except String Unit :=
  match endpoint with
  | some e =>
    if e ≠ "" then
      match checkEndpoint e with
      | .ok _ => .ok ()
      | .error _ => .error "Invalid API endpoint URL"
    else .ok ()
  | none => .ok ()

/-- `validateConfig`. -/
def validateConfig (config : ClientConfig) : Except String Unit :=
  if !(match config.siteId with | some (.vStr s) => s ≠ "" | _ => false) then
    .error "siteId is required and must be a string"
  else
    match endpointGate config.endpoint with
    | .error msg => .error msg
    | .ok _ =>
      if !flagOk config.consentRequired then .error "consentRequired must be a boolean value"
      else if !flagOk config.hashUserIds then .error "hashUserIds must be a boolean value"
      else if !flagOk config.automaticPageViews then
        .error "automaticPageViews must be a boolean value"
      else .ok ()

/-! ## Client consent gate and queue (`BaseAnalytics`) -/

/-- An event object built by `track`. -/
structure ClientEvent where
  type : String
  properties : Props
  timestamp : String
  url : String
deriving DecidableEq, Repr

/-- The observable state of a `BaseAnalytics` instance.  `sent` is the
log of events handed to `sendEvent`, in dispatch order. -/
structure ClientState where
  initialized : Bool
  hasConsent : Bool
  queue : List ClientEvent
  sent : List ClientEvent
  storedConsent : Option String
deriving DecidableEq, Repr

/-- The `BaseAnalytics` constructor: validate, then read the persisted
consent flag (`hasConsent = !consentRequired || stored === 'true'`). -/
def mkClient (config : ClientConfig) (storedConsent : Option String) :
    Except String ClientState :=
  match validateConfig config with
  | .error e => .error e
  | .ok _ =>
    let consentRequired := match config.consentRequired with
      | some (.vBool b) => b
      | some v => truthy (some v)
      | none => true
    .ok { initialized := false
          hasConsent := !consentRequired || storedConsent = some "true"
          queue := []
          sent := []
          storedConsent := storedConsent }

/-- `processQueue`: no-op without consent or before `init`; otherwise
clears the queue and dispatches every queued event in order. -/
def processQueue (s : ClientState) : ClientState :=
  if !s.hasConsent || !s.initialized then s
  else { s with queue := [], sent := s.sent ++ s.queue }

/-- `init()`. -/
def clientInit (s : ClientState) : ClientState :=
  if s.initialized then s else processQueue { s with initialized := true }

/-- `enableTracking()`: grant consent, persist it, flush the queue. -/
def enableTracking (s : ClientState) : ClientState :=
  processQueue { s with hasConsent := true, storedConsent := some "true" }

/-- `disableTracking()`. -/
def disableTracking (s : ClientState) : ClientState :=
  { s with hasConsent := false, storedConsent := some "false" }

/-- `track(eventName, properties)`: validate, build the event, queue it
without consent (or before `init`), send it otherwise; the event object
is returned either way. -/
def track (s : ClientState) (eventName : String) (properties : Props)
    (ts url : String) : Except String (ClientState × ClientEvent) :=
  match validateEventName eventName with
  | .error e => .error e
  | .ok _ =>
    match validateProperties properties with
    | .error e => .error e
    | .ok _ =>
      let event : ClientEvent :=
        { type := eventName, properties := properties, timestamp := ts, url := url }
      if !s.hasConsent || !s.initialized then
        .ok ({ s with queue := s.queue ++ [event] }, event)
      else
        .ok ({ s with sent := s.sent ++ [event] }, event)

/-- One client API call. -/
inductive ClientOp where
  | opInit
  | opEnable
  | opDisable
  | opProcess
  | opTrack (eventName : String) (properties : Props) (ts url : String)
deriving DecidableEq, Repr

/-- The state transition of one call (a `track` that throws leaves the
state unchanged). -/
def clientStep (s : ClientState) : ClientOp → ClientState
  | .opInit => clientInit s
  | .opEnable => enableTracking s
  | .opDisable => disableTracking s
  | .opProcess => processQueue s
  | .opTrack n p ts u =>
    match track s n p ts u with
    | .ok (s', _) => s'
    | .error _ => s

/-! ## Lemmas: SHA-256 digest shape -/

theorem shaRound_length (st : List Nat) (w k : Nat) :
    (shaRound st w k).length = st.length := by
  unfold shaRound
  split <;> simp_all

theorem foldl_shaRound_length (l : List (Nat × Nat)) :
    ∀ st : List Nat, (l.foldl (fun st wk => shaRound st wk.1 wk.2) st).length = st.length := by
  induction l with
  | nil => intro st; rfl
  | cons wk l ih => intro st; rw [List.foldl_cons, ih, shaRound_length]

theorem sha256Compress_length {H : List Nat} (block : List Nat) (h : H.length = 8) :
    (sha256Compress H block).length = 8 := by
  simp [sha256Compress, foldl_shaRound_length, h]

theorem sha256Blocks_length (H ws : List Nat) (h : H.length = 8) :
    (sha256Blocks H ws).length = 8 := by
  induction H, ws using sha256Blocks.induct with
  | case1 H w₀ w₁ w₂ w₃ w₄ w₅ w₆ w₇ w₈ w₉ w₁₀ w₁₁ w₁₂ w₁₃ w₁₄ w₁₅ rest ih =>
    rw [sha256Blocks]
    exact ih (sha256Compress_length _ h)
  | case2 H ws hne =>
    rw [sha256Blocks.eq_def]
    split
    · exact ((hne _ _ _ _ _ _ _ _ _ _ _ _ _ _ _ _ _ rfl).elim)
    · exact h

theorem sha256_length (msg : List Nat) : (sha256 msg).length = 32 := by
  unfold sha256
  rw [length_flatMap_const _ 4 (fun w => by simp),
    sha256Blocks_length _ _ (by simp [sha256H0])]

theorem mem_sha256_lt {b : Nat} {msg : List Nat} (h : b ∈ sha256 msg) : b < 256 := by
  simp only [sha256, List.mem_flatMap] at h
  obtain ⟨w, -, hb⟩ := h
  simp only [List.mem_cons, List.not_mem_nil, or_false] at hb
  rcases hb with rfl | rfl | rfl | rfl <;> omega

theorem length_bytesToHex (bs : List Nat) : (bytesToHex bs).length = 2 * bs.length :=
  length_flatMap_const byteToHex 2 (fun _ => rfl) bs

theorem mem_bytesToHex_mem_digits {c : Char} {bs : List Nat} (h : c ∈ bytesToHex bs) :
    c ∈ lowerHexDigits := by
  simp only [bytesToHex, List.mem_flatMap, byteToHex] at h
  obtain ⟨b, -, hc⟩ := h
  simp only [List.mem_cons, List.not_mem_nil, or_false] at hc
  rcases hc with rfl | rfl <;> exact hexChar_mem_lowerHexDigits _

theorem sha256Hex_length (msg : List Nat) : (sha256Hex msg).length = 64 := by
  rw [sha256Hex, length_bytesToHex, sha256_length]

theorem mem_sha256Hex {c : Char} {msg : List Nat} (h : c ∈ sha256Hex msg) :
    c ∈ lowerHexDigits := mem_bytesToHex_mem_digits h

theorem colon_not_mem_sha256Hex (msg : List Nat) : ':' ∉ sha256Hex msg := by
  intro h
  have := mem_sha256Hex h
  simp [lowerHexDigits] at this

/-! ## Lemmas: UTF-8 encoding of hex strings -/

theorem utf8EncodeChar_hexDigit {c : Char} (h : c ∈ lowerHexDigits) :
    utf8EncodeChar c = [c.toNat] := by
  fin_cases h <;> rfl

theorem utf8Encode_hexChars {s : List Char} (h : ∀ c ∈ s, c ∈ lowerHexDigits) :
    utf8Encode s = s.map Char.toNat := by
  induction s with
  | nil => rfl
  | cons c s ih =>
    have hc := h c (List.mem_cons_self c s)
    simp only [utf8Encode, List.flatMap_cons, utf8EncodeChar_hexDigit hc]
    rw [← utf8Encode, ih (fun x hx => h x (List.mem_cons_of_mem c hx)), List.map_cons]
    rfl

theorem utf8_sha256Hex_eq (msg : List Nat) :
    utf8Encode (sha256Hex msg) = (sha256Hex msg).map Char.toNat :=
  utf8Encode_hexChars (fun _ hc => mem_sha256Hex hc)

theorem utf8_sha256Hex_length (msg : List Nat) :
    (utf8Encode (sha256Hex msg)).length = 64 := by
  rw [utf8_sha256Hex_eq, List.length_map, sha256Hex_length]

theorem utf8_sha256Hex_ne_nil (msg : List Nat) : utf8Encode (sha256Hex msg) ≠ [] := by
  intro h
  have := utf8_sha256Hex_length msg
  rw [h] at this
  simp at this

theorem utf8_sha256Hex_lt {b : Nat} {msg : List Nat}
    (h : b ∈ utf8Encode (sha256Hex msg)) : b < 256 := by
  rw [utf8_sha256Hex_eq] at h
  simp only [List.mem_map] at h
  obtain ⟨c, hc, rfl⟩ := h
  have hd := mem_sha256Hex hc
  fin_cases hd <;> decide

/-! ## Lemmas: shape of `encrypt` tokens -/

theorem encrypt_eq_some {iv key text : List Nat} (h : text ≠ []) :
    encrypt iv key text = some (bytesToHex iv ++ (':' ::
      (bytesToHex (gcmTag key iv (gcmCt key iv text)) ++
        (':' :: bytesToHex (gcmCt key iv text))))) := by
  simp [encrypt, h]

theorem colon_mem_encrypt_token {iv key text : List Nat} {tok : List Char}
    (h : encrypt iv key text = some tok) : ':' ∈ tok := by
  by_cases htext : text = []
  · subst htext
    simp [encrypt] at h
  · rw [encrypt_eq_some htext] at h
    cases h
    exact List.mem_append_right _ (List.mem_cons_self _ _)

/-! ## Lemmas: property objects -/

theorem getProp_eq_none_iff (p : Props) (k : String) :
    getProp p k = none ↔ k ∉ propKeys p := by
  induction p with
  | nil => simp [getProp, propKeys]
  | cons kv rest ih =>
    by_cases h : kv.1 = k
    · simp [getProp, propKeys, h]
    · simp only [getProp, if_neg h, propKeys, List.map_cons, List.mem_cons, ih, propKeys]
      constructor
      · intro hk
        rintro (rfl | hm)
        · exact h rfl
        · exact hk hm
      · intro hk hm
        exact hk (Or.inr hm)

theorem mem_propKeys_delProp {p : Props} {k k' : String} :
    k' ∈ propKeys (delProp p k) ↔ k' ∈ propKeys p ∧ k' ≠ k := by
  unfold delProp propKeys
  simp only [List.mem_map, List.mem_filter, decide_eq_true_eq]
  constructor
  · rintro ⟨kv, ⟨hmem, hne⟩, rfl⟩
    exact ⟨⟨kv, hmem, rfl⟩, hne⟩
  · rintro ⟨⟨kv, hmem, rfl⟩, hne⟩
    exact ⟨kv, ⟨hmem, hne⟩, rfl⟩

theorem propKeys_setProp_of_mem {p : Props} {k : String} (v : JSValue)
    (h : k ∈ propKeys p) : propKeys (setProp p k v) = propKeys p := by
  unfold setProp
  have hany : p.any (fun kv => kv.1 = k) = true := by
    simp only [propKeys, List.mem_map] at h
    obtain ⟨kv, hkv, rfl⟩ := h
    exact List.any_eq_true.mpr ⟨kv, hkv, by simp⟩
  rw [if_pos hany]
  unfold propKeys
  rw [List.map_map]
  apply List.map_congr_left
  intro kv _
  by_cases hk : kv.1 = k
  · rw [Function.comp_apply, if_pos hk]
    exact hk.symm
  · rw [Function.comp_apply, if_neg hk]

theorem getProp_delProp_ne {p : Props} {k k' : String} (h : k' ≠ k) :
    getProp (delProp p k) k' = getProp p k' := by
  induction p with
  | nil => rfl
  | cons kv p ih =>
    by_cases hk : kv.1 = k
    · have hkv' : ¬ (kv.1 = k') := by rw [hk]; exact fun hh => h hh.symm
      have hfilter : delProp (kv :: p) k = delProp p k := by
        simp [delProp, List.filter_cons, hk]
      rw [hfilter, ih]
      conv_rhs => rw [getProp, if_neg hkv']
    · have hfilter : delProp (kv :: p) k = kv :: delProp p k := by
        simp [delProp, List.filter_cons, hk]
      rw [hfilter]
      simp only [getProp]
      by_cases hkv' : kv.1 = k'
      · rw [if_pos hkv', if_pos hkv']
      · rw [if_neg hkv', if_neg hkv']
        exact ih

theorem getProp_mapSet_ne (p : Props) (k k' : String) (v : JSValue) (h : k' ≠ k) :
    getProp (p.map (fun kv => if kv.1 = k then (k, v) else kv)) k' = getProp p k' := by
  induction p with
  | nil => rfl
  | cons kv rest ih =>
    simp only [List.map_cons, getProp]
    by_cases hk : kv.1 = k
    · rw [if_pos hk]
      have h1 : ¬ ((k, v).1 = k') := fun hh => h hh.symm
      have h2 : ¬ (kv.1 = k') := by rw [hk]; exact fun hh => h hh.symm
      rw [if_neg h1, if_neg h2]
      exact ih
    · rw [if_neg hk]
      by_cases hkv' : kv.1 = k'
      · rw [if_pos hkv', if_pos hkv']
      · rw [if_neg hkv', if_neg hkv']
        exact ih

theorem getProp_append_single_ne (p : Props) (k k' : String) (v : JSValue) (h : k' ≠ k) :
    getProp (p ++ [(k, v)]) k' = getProp p k' := by
  induction p with
  | nil =>
    simp only [List.nil_append, getProp]
    rw [if_neg (show ¬ ((k, v).1 = k') from fun hh => h hh.symm)]
  | cons kv rest ih =>
    simp only [List.cons_append, getProp]
    by_cases hkv : kv.1 = k'
    · rw [if_pos hkv, if_pos hkv]
    · rw [if_neg hkv, if_neg hkv]
      exact ih

theorem getProp_setProp_ne {p : Props} {k k' : String} (v : JSValue) (h : k' ≠ k) :
    getProp (setProp p k v) k' = getProp p k' := by
  unfold setProp
  split
  · exact getProp_mapSet_ne p k k' v h
  · exact getProp_append_single_ne p k k' v h

theorem getProp_ne_none_mem {p : Props} {k : String} (h : getProp p k ≠ none) :
    k ∈ propKeys p := by
  by_contra hk
  exact h ((getProp_eq_none_iff p k).mpr hk)

/-! ## Lemmas: the sanitizer stages -/

theorem mem_propKeys_foldl_delProp (fs : List String) :
    ∀ (p : Props) (k : String),
      k ∈ propKeys (fs.foldl delProp p) ↔ k ∈ propKeys p ∧ k ∉ fs := by
  induction fs with
  | nil => intro p k; simp
  | cons f fs ih =>
    intro p k
    rw [List.foldl_cons, ih, mem_propKeys_delProp]
    simp only [List.mem_cons]
    constructor
    · rintro ⟨⟨hm, hne⟩, hnfs⟩
      exact ⟨hm, by rintro (rfl | hfs) <;> [exact hne rfl; exact hnfs hfs]⟩
    · rintro ⟨hm, hn⟩
      exact ⟨⟨hm, fun hh => hn (Or.inl hh)⟩, fun hh => hn (Or.inr hh)⟩

theorem propKeys_hashSensitiveStep (s : Props) (f : String) :
    propKeys (hashSensitiveStep s f) = propKeys s := by
  unfold hashSensitiveStep
  split
  · rename_i v hv
    split
    · apply propKeys_setProp_of_mem
      apply getProp_ne_none_mem
      rw [hv]
      simp
    · rfl
  · rfl

theorem propKeys_foldl_hash (fs : List String) :
    ∀ s : Props, propKeys (fs.foldl hashSensitiveStep s) = propKeys s := by
  induction fs with
  | nil => intro s; rfl
  | cons f fs ih =>
    intro s
    rw [List.foldl_cons, ih, propKeys_hashSensitiveStep]

theorem propKeys_urlCleanStep (s : Props) : propKeys (urlCleanStep s) = propKeys s := by
  unfold urlCleanStep
  split
  · rename_i v hv
    split
    · split
      · apply propKeys_setProp_of_mem
        apply getProp_ne_none_mem
        rw [hv]
        simp
      · rfl
    · rfl
  · rfl

theorem mem_propKeys_sanitize {hu : Bool} {props : Props} {k : String} :
    k ∈ propKeys (sanitizeProperties hu props) ↔
      k ∈ propKeys props ∧ k ∉ piiFields ∧ k ∉ trackingParams := by
  unfold sanitizeProperties
  rw [propKeys_urlCleanStep, mem_propKeys_foldl_delProp]
  by_cases hhu : hu
  · rw [if_pos hhu, propKeys_foldl_hash, mem_propKeys_foldl_delProp]
    tauto
  · rw [if_neg hhu, mem_propKeys_foldl_delProp]
    tauto

theorem getProp_foldl_delProp_notMem (fs : List String) :
    ∀ (p : Props) (k : String), k ∉ fs → getProp (fs.foldl delProp p) k = getProp p k := by
  induction fs with
  | nil => intro p k _; rfl
  | cons f fs ih =>
    intro p k hk
    rw [List.foldl_cons, ih _ _ (fun hh => hk (List.mem_cons_of_mem f hh)),
      getProp_delProp_ne (fun hh => hk (by rw [hh]; exact List.mem_cons_self f fs))]

theorem getProp_hashSensitiveStep_ne {s : Props} {f k : String} (h : k ≠ f) :
    getProp (hashSensitiveStep s f) k = getProp s k := by
  unfold hashSensitiveStep
  split
  · split
    · exact getProp_setProp_ne _ h
    · rfl
  · rfl

theorem getProp_foldl_hash_notMem (fs : List String) :
    ∀ (s : Props) (k : String), k ∉ fs →
      getProp (fs.foldl hashSensitiveStep s) k = getProp s k := by
  induction fs with
  | nil => intro s k _; rfl
  | cons f fs ih =>
    intro s k hk
    rw [List.foldl_cons, ih _ _ (fun hh => hk (List.mem_cons_of_mem f hh)),
      getProp_hashSensitiveStep_ne (fun hh => hk (by rw [hh]; exact List.mem_cons_self f fs))]

theorem hashSensitiveStep_of_none {s : Props} {f : String} (h : getProp s f = none) :
    hashSensitiveStep s f = s := by
  unfold hashSensitiveStep
  rw [h]

theorem foldl_hash_of_none (fs : List String) :
    ∀ s : Props, (∀ f ∈ fs, getProp s f = none) → fs.foldl hashSensitiveStep s = s := by
  induction fs with
  | nil => intro s _; rfl
  | cons f fs ih =>
    intro s h
    rw [List.foldl_cons, hashSensitiveStep_of_none (h f (List.mem_cons_self f fs)),
      ih s (fun f' hf' => h f' (List.mem_cons_of_mem f hf'))]

theorem urlCleanStep_of_none {s : Props} (h : getProp s "url" = none) :
    urlCleanStep s = s := by
  unfold urlCleanStep
  rw [h]

theorem foldl_delProp_eq_filter (fs : List String) :
    ∀ p : Props, fs.foldl delProp p = p.filter (fun kv => !(fs.contains kv.1)) := by
  induction fs with
  | nil => intro p; simp
  | cons f fs ih =>
    intro p
    rw [List.foldl_cons, ih, delProp, List.filter_filter]
    apply List.filter_congr
    intro kv _
    by_cases hf : kv.1 = f <;> simp [hf, List.contains_cons]

theorem mem_propKeys_filter {p : Props} {g : String × JSValue → Bool} {k : String}
    (h : k ∈ propKeys (p.filter g)) : k ∈ propKeys p := by
  simp only [propKeys, List.mem_map, List.mem_filter] at h ⊢
  obtain ⟨kv, ⟨hm, -⟩, rfl⟩ := h
  exact ⟨kv, hm, rfl⟩

theorem getProp_filter_none {p : Props} {g : String × JSValue → Bool} {k : String}
    (h : getProp p k = none) : getProp (p.filter g) k = none := by
  rw [getProp_eq_none_iff] at h ⊢
  exact fun hm => h (mem_propKeys_filter hm)

/-- With no truthy `url` and (when hashing) no sensitive-id keys, the
sanitizer is the pure PII/tracking key filter. -/
theorem sanitize_eq_filter_of_inactive {hu : Bool} {props : Props}
    (hurl : getProp props "url" = none)
    (hids : hu = true → ∀ f ∈ sensitiveIds, getProp props f = none) :
    sanitizeProperties hu props =
      props.filter (fun kv => !(trackingParams.contains kv.1) && !(piiFields.contains kv.1)) := by
  show urlCleanStep (trackingParams.foldl delProp
    (if hu = true then sensitiveIds.foldl hashSensitiveStep (piiFields.foldl delProp props)
     else piiFields.foldl delProp props)) = _
  have hd₁ : piiFields.foldl delProp props =
      props.filter (fun kv => !(piiFields.contains kv.1)) := foldl_delProp_eq_filter _ _
  have hhash : (if hu then sensitiveIds.foldl hashSensitiveStep
      (piiFields.foldl delProp props) else piiFields.foldl delProp props) =
      piiFields.foldl delProp props := by
    by_cases hhu : hu
    · rw [if_pos hhu]
      apply foldl_hash_of_none
      intro f hf
      rw [hd₁]
      exact getProp_filter_none (hids hhu f hf)
    · rw [if_neg hhu]
  rw [hhash, foldl_delProp_eq_filter, hd₁, List.filter_filter,
    urlCleanStep_of_none (getProp_filter_none hurl)]

theorem sanitize_idempotent_of_inactive {hu : Bool} {props : Props}
    (hurl : getProp props "url" = none)
    (hids : hu = true → ∀ f ∈ sensitiveIds, getProp props f = none) :
    sanitizeProperties hu (sanitizeProperties hu props) = sanitizeProperties hu props := by
  have h₁ := sanitize_eq_filter_of_inactive hurl hids
  have hurl' : getProp (sanitizeProperties hu props) "url" = none := by
    rw [h₁]; exact getProp_filter_none hurl
  have hids' : hu = true → ∀ f ∈ sensitiveIds,
      getProp (sanitizeProperties hu props) f = none := by
    intro hhu f hf
    rw [h₁]
    exact getProp_filter_none (hids hhu f hf)
  rw [sanitize_eq_filter_of_inactive hurl' hids', h₁, List.filter_filter]
  apply List.filter_congr
  intro kv _
  rw [Bool.and_self]

/-! ## Lemmas: the retention sweep -/

/-- Is the event deleted by a sweep over `sites`? -/
def eventExpiredAny (now : Int) (sites : List Site) (e : StoredEvent) : Bool :=
  sites.any (fun s => evtExpired now s e)

theorem length_filter_partition {α : Type} (l : List α) (p : α → Bool) :
    (l.filter p).length + (l.filter (fun a => !p a)).length = l.length := by
  induction l with
  | nil => rfl
  | cons a l ih => by_cases h : p a <;> simp [List.filter_cons, h] <;> omega

theorem cleanup_go (now : Int) (sites : List Site) :
    ∀ (acc : Nat) (events : List StoredEvent),
      sites.foldl
        (fun a site =>
          let r := deleteManyExpired now site a.2
          (a.1 + r.2, r.1)) (acc, events) =
      (acc + (events.length -
        (events.filter (fun e => !eventExpiredAny now sites e)).length),
       events.filter (fun e => !eventExpiredAny now sites e)) := by
  induction sites with
  | nil =>
    intro acc events
    simp only [List.foldl_nil, eventExpiredAny, List.any_nil, Bool.not_false,
      List.filter_true]
    rw [Nat.sub_self, Nat.add_zero]
  | cons s sites ih =>
    intro acc events
    rw [List.foldl_cons]
    show sites.foldl _
      (acc + (events.filter (evtExpired now s)).length,
       events.filter (fun e => !evtExpired now s e)) = _
    rw [ih]
    have hpart := length_filter_partition events (evtExpired now s)
    have hcompose : (events.filter (fun e => !evtExpired now s e)).filter
        (fun e => !eventExpiredAny now sites e) =
        events.filter (fun e => !eventExpiredAny now (s :: sites) e) := by
      rw [List.filter_filter]
      apply List.filter_congr
      intro e _
      simp only [eventExpiredAny, List.any_cons, Bool.not_or]
      rw [Bool.and_comm]
    rw [hcompose]
    have hle₁ : (events.filter (fun e => !eventExpiredAny now (s :: sites) e)).length ≤
        (events.filter (fun e => !evtExpired now s e)).length := by
      rw [← hcompose]
      exact List.length_filter_le _ _
    have hle₂ : (events.filter (fun e => !evtExpired now s e)).length ≤ events.length :=
      List.length_filter_le _ _
    congr 1
    omega

theorem cleanupOldEvents_eq (now : Int) (sites : List Site) (events : List StoredEvent) :
    cleanupOldEvents now sites events =
      (events.length - (events.filter (fun e => !eventExpiredAny now sites e)).length,
       events.filter (fun e => !eventExpiredAny now sites e)) := by
  unfold cleanupOldEvents
  rw [cleanup_go]
  rw [Nat.zero_add]

/-! ## Lemmas: query-parameter parsing and serialization -/

theorem splitOnChar_nil (sep : Char) : splitOnChar sep [] = [[]] := rfl

theorem splitOnChar_ne_nil (sep : Char) (l : List Char) : splitOnChar sep l ≠ [] := by
  cases l with
  | nil => simp [splitOnChar]
  | cons c rest =>
    simp only [splitOnChar]
    split
    · simp
    · exact consHead_ne_nil _ _

theorem splitOnChar_cons_of_ne {sep c : Char} (hc : c ≠ sep) (l : List Char) :
    splitOnChar sep (c :: l) = consHead c (splitOnChar sep l) := by
  simp [splitOnChar, hc]

theorem splitOnChar_no_sep {sep : Char} {l : List Char} (h : sep ∉ l) :
    splitOnChar sep l = [l] := by
  induction l with
  | nil => rfl
  | cons c rest ih =>
    have hc : c ≠ sep := fun hh => h (hh ▸ List.mem_cons_self c rest)
    rw [splitOnChar_cons_of_ne hc, ih (fun hm => h (List.mem_cons_of_mem c hm))]
    rfl

theorem splitOnChar_append_sep {sep : Char} {xs : List Char} (h : sep ∉ xs)
    (rest : List Char) :
    splitOnChar sep (xs ++ sep :: rest) = xs :: splitOnChar sep rest := by
  induction xs with
  | nil => simp [splitOnChar]
  | cons c xs ih =>
    have hc : c ≠ sep := fun hh => h (hh ▸ List.mem_cons_self c xs)
    rw [List.cons_append, splitOnChar_cons_of_ne hc,
      ih (fun hm => h (List.mem_cons_of_mem c hm))]
    rfl

theorem mem_splitOnChar_no_sep (sep : Char) :
    ∀ (l : List Char), ∀ seg ∈ splitOnChar sep l, sep ∉ seg := by
  intro l
  induction l with
  | nil =>
    intro seg hseg
    simp only [splitOnChar_nil, List.mem_cons, List.not_mem_nil, or_false] at hseg
    subst hseg
    simp
  | cons c rest ih =>
    intro seg hseg
    by_cases hc : c = sep
    · subst hc
      rw [splitOnChar, if_pos rfl] at hseg
      rcases List.mem_cons.mp hseg with hseg | hseg
      · subst hseg; simp
      · exact ih seg hseg
    · rw [splitOnChar_cons_of_ne hc] at hseg
      cases hsplit : splitOnChar sep rest with
      | nil => exact absurd hsplit (splitOnChar_ne_nil sep rest)
      | cons g gs =>
        rw [hsplit] at hseg
        simp only [consHead, List.mem_cons] at hseg
        rcases hseg with rfl | hseg
        · intro hm
          rcases List.mem_cons.mp hm with rfl | hm
          · exact hc rfl
          · exact ih g (hsplit ▸ List.mem_cons_self g gs) hm
        · exact ih seg (hsplit ▸ List.mem_cons_of_mem g hseg)

theorem takeWhile_append_stop {k : List Char} (h : '=' ∉ k) (v : List Char) :
    (k ++ '=' :: v).takeWhile (fun c => c ≠ '=') = k := by
  induction k with
  | nil => simp [List.takeWhile_cons]
  | cons c k ih =>
    have hc : c ≠ '=' := fun hh => h (hh ▸ List.mem_cons_self c k)
    rw [List.cons_append, List.takeWhile_cons_of_pos (by simp [hc]),
      ih (fun hm => h (List.mem_cons_of_mem c hm))]

theorem dropWhile_append_stop {k : List Char} (h : '=' ∉ k) (v : List Char) :
    (k ++ '=' :: v).dropWhile (fun c => c ≠ '=') = '=' :: v := by
  induction k with
  | nil => simp [List.dropWhile_cons]
  | cons c k ih =>
    have hc : c ≠ '=' := fun hh => h (hh ▸ List.mem_cons_self c k)
    rw [List.cons_append, List.dropWhile_cons_of_pos (by simp [hc]),
      ih (fun hm => h (List.mem_cons_of_mem c hm))]

theorem urlCleanStep_getProp_parse_fail {p : Props} {s : String}
    (hget : getProp p "url" = some (.vStr s)) (hparse : parseURL s.toList = none) :
    getProp (urlCleanStep p) "url" = some (.vStr s) := by
  unfold urlCleanStep
  rw [hget]
  show getProp (if truthy (some (JSValue.vStr s)) = true then
      match cleanUrl (toJSString (JSValue.vStr s)).toList with
      | some cleaned => setProp p "url" (JSValue.vStr (String.mk cleaned))
      | none => p
    else p) "url" = some (JSValue.vStr s)
  by_cases hs : s = ""
  · subst hs
    rw [show truthy (some (JSValue.vStr "")) = false from rfl]
    rw [if_neg (by simp)]
    exact hget
  · rw [show truthy (some (JSValue.vStr s)) = decide (s ≠ "") from rfl]
    rw [if_pos (by simp [hs])]
    have hclean : cleanUrl (toJSString (JSValue.vStr s)).toList = none := by
      show cleanUrl s.toList = none
      unfold cleanUrl
      rw [hparse]
    rw [hclean]
    exact hget

theorem parseParams_wf (q : List Char) :
    ∀ kv ∈ parseParams q, '&' ∉ kv.1 ∧ '=' ∉ kv.1 ∧ '&' ∉ kv.2 := by
  intro kv hkv
  simp only [parseParams, List.mem_map, List.mem_filter] at hkv
  obtain ⟨seg, ⟨hseg, -⟩, rfl⟩ := hkv
  have hamp : '&' ∉ seg := mem_splitOnChar_no_sep '&' q seg hseg
  refine ⟨?_, ?_, ?_⟩
  · intro hm
    exact hamp ((List.takeWhile_prefix _).subset hm)
  · intro hm
    have := List.mem_takeWhile_imp hm
    simp at this
  · intro hm
    have hsub : (seg.dropWhile (fun c => c ≠ '=')).drop 1 <:+ seg :=
      ((List.drop_suffix 1 _).trans (List.dropWhile_suffix _))
    exact hamp (hsub.subset hm)

theorem amp_not_mem_segment {k v : List Char} (hk : '&' ∉ k) (hv : '&' ∉ v) :
    '&' ∉ k ++ '=' :: v := by
  intro hm
  rcases List.mem_append.mp hm with hm | hm
  · exact hk hm
  · rcases List.mem_cons.mp hm with hm | hm
    · exact absurd hm (by decide)
    · exact hv hm

theorem parseParams_single {k v : List Char} (hk₁ : '&' ∉ k) (hk₂ : '=' ∉ k)
    (hv : '&' ∉ v) : parseParams (k ++ '=' :: v) = [(k, v)] := by
  unfold parseParams
  rw [splitOnChar_no_sep (amp_not_mem_segment hk₁ hv)]
  have hne : (k ++ '=' :: v) ≠ [] := by simp
  rw [List.filter_cons_of_pos (by simp), List.filter_nil, List.map_cons,
    List.map_nil, takeWhile_append_stop hk₂, dropWhile_append_stop hk₂]
  rfl

theorem parseParams_serializeParams :
    ∀ ps : List (List Char × List Char),
      (∀ kv ∈ ps, '&' ∉ kv.1 ∧ '=' ∉ kv.1 ∧ '&' ∉ kv.2) →
      parseParams (serializeParams ps) = ps := by
  intro ps
  induction ps with
  | nil => intro _; rfl
  | cons p ps ih =>
    intro hwf
    obtain ⟨hk₁, hk₂, hv⟩ := hwf p (List.mem_cons_self p ps)
    cases ps with
    | nil =>
      show parseParams (p.1 ++ '=' :: p.2) = [p]
      rw [parseParams_single hk₁ hk₂ hv]
    | cons q ps' =>
      have hS : serializeParams (p :: q :: ps') =
          (p.1 ++ '=' :: p.2) ++ '&' :: serializeParams (q :: ps') := by
        show p.1 ++ ('=' :: (p.2 ++ '&' :: serializeParams (q :: ps'))) = _
        simp [List.append_assoc]
      rw [hS]
      unfold parseParams
      rw [splitOnChar_append_sep (amp_not_mem_segment hk₁ hv)]
      have hne : (p.1 ++ '=' :: p.2) ≠ [] := by simp
      rw [List.filter_cons_of_pos (by simp), List.map_cons,
        takeWhile_append_stop hk₂, dropWhile_append_stop hk₂]
      have htail : ((splitOnChar '&' (serializeParams (q :: ps'))).filter
          (fun seg => seg ≠ [])).map (fun seg =>
            (seg.takeWhile (fun c => c ≠ '='),
             (seg.dropWhile (fun c => c ≠ '=')).drop 1)) =
          parseParams (serializeParams (q :: ps')) := rfl
      rw [htail, ih (fun kv hkv => hwf kv (List.mem_cons_of_mem p hkv))]
      rfl

/-! ## Claims -/

/-- C1 counterexample: the property key `SSN` — whose lowercase form
`ssn` contains the PII indicator `ssn` — survives both the client
sanitizer (which deletes only the exact lowercase key names) and the
backend storage filter (which checks substrings only for email, phone,
address and name), so it reaches storage in plaintext. -/
theorem pii_substring_key_reaches_storage :
    "SSN" ∈ propKeys (storeEventProps
      (sanitizeProperties true [("SSN", .vStr "123-45-6789")])) ∧
    getProp (storeEventProps (sanitizeProperties true [("SSN", .vStr "123-45-6789")]))
      "SSN" = some (.vStr "123-45-6789") ∧
    "ssn".toList <:+: (jsToLower "SSN").toList := by decide

/-- C1 (amended): the sanitizer removes exactly the keys that are
(case-sensitively, whole-key) equal to a PII field name or a tracking
parameter name, and storage additionally drops keys whose lowercase form
contains email, phone, address or name; every stored properties key is
the sanitized image of an input key that passed that filter. -/
theorem pii_exact_removal_and_storage_filter :
    (∀ (hu : Bool) (props : Props) (k : String),
        k ∈ propKeys (sanitizeProperties hu props) →
        k ∉ piiFields ∧ k ∉ trackingParams ∧ k ∈ propKeys props)
    ∧ (∀ (props : Props) (k' : String), k' ∈ propKeys (storeEventProps props) →
        ∃ k ∈ propKeys props, k' = sanitizeInputStr k ∧ backendKeyKept k = true) := by
  constructor
  · intro hu props k hk
    have h := mem_propKeys_sanitize.mp hk
    exact ⟨h.2.1, h.2.2, h.1⟩
  · intro props k' hk'
    simp only [storeEventProps, propKeys, List.map_map, List.mem_map,
      List.mem_filter, Function.comp_apply] at hk'
    obtain ⟨kv, ⟨hm, hkept⟩, rfl⟩ := hk'
    exact ⟨kv.1, List.mem_map.mpr ⟨kv, hm, rfl⟩, rfl, hkept⟩

/-- Witness for C1's amended theorem at the key `value`. -/
theorem pii_exact_removal_and_storage_filter_witness :
    ("value" ∉ piiFields ∧ "value" ∉ trackingParams ∧
      "value" ∈ propKeys [("value", JSValue.vNum 1)]) ∧
    (∃ k ∈ propKeys [("value", JSValue.vNum 1)],
      "value" = sanitizeInputStr k ∧ backendKeyKept k = true) :=
  ⟨pii_exact_removal_and_storage_filter.1 true [("value", JSValue.vNum 1)] "value" (by decide),
   pii_exact_removal_and_storage_filter.2 [("value", JSValue.vNum 1)] "value" (by decide)⟩

set_option maxRecDepth 100000 in
/-- C5 counterexample: sanitization is not idempotent.  With default
hashing, a second pass re-hashes the already-hashed `userId`; and a url
`http://e.com//` loses one trailing slash on every pass. -/
theorem sanitize_not_idempotent_cex :
    sanitizeProperties true (sanitizeProperties true [("userId", .vStr "12345")]) ≠
      sanitizeProperties true [("userId", .vStr "12345")] ∧
    sanitizeProperties true (sanitizeProperties true [("url", .vStr "http://e.com//")]) ≠
      sanitizeProperties true [("url", .vStr "http://e.com//")] := by decide

/-- C5 (amended): sanitization is idempotent on properties objects with
no `url` key and — when id hashing is enabled — no sensitive-id key
(`userId`, `customerId`, `accountId`); with a truthy sensitive id the
second pass re-hashes, and a cleaned url can lose a further trailing
slash. -/
theorem sanitize_idempotent_without_hash_and_url :
    ∀ (hu : Bool) (props : Props),
      getProp props "url" = none →
      (hu = true → ∀ f ∈ sensitiveIds, getProp props f = none) →
      sanitizeProperties hu (sanitizeProperties hu props) = sanitizeProperties hu props :=
  fun _ _ hurl hids => sanitize_idempotent_of_inactive hurl hids

/-- Witness for C5's amended theorem on a one-key object. -/
theorem sanitize_idempotent_without_hash_and_url_witness :
    sanitizeProperties true (sanitizeProperties true [("count", JSValue.vNum 2)]) =
      sanitizeProperties true [("count", JSValue.vNum 2)] :=
  sanitize_idempotent_without_hash_and_url true [("count", JSValue.vNum 2)]
    (by decide) (by decide)

/-- C6 counterexample: the backend `hash` returns `null` on the empty
string, not a 64-character hex digest, so the fixed-form output claim
fails at `v = ''`. -/
theorem hash_empty_returns_null :
    hash [] = none ∧ ∀ out : List Char, hash [] ≠ some out := by
  constructor
  · rfl
  · intro out
    simp [hash]

/-- C6 (amended): for every nonempty value the backend `hash` is
deterministic and returns the SHA-256 digest as a 64-character lowercase
hex string; the client `hashValue` does so for every value. -/
theorem hash_deterministic_hex64 :
    ∀ v : List Nat, v ≠ [] →
      hash v = hash v ∧
      hash v = some (sha256Hex v) ∧
      (sha256Hex v).length = 64 ∧
      (∀ c ∈ sha256Hex v, c ∈ lowerHexDigits) ∧
      (∀ s : List Char, (hashValue s).length = 64 ∧
        ∀ c ∈ hashValue s, c ∈ lowerHexDigits) := by
  intro v hv
  exact ⟨rfl, by simp [hash, hv], sha256Hex_length v, fun c hc => mem_sha256Hex hc,
    fun s => ⟨sha256Hex_length _, fun c hc => mem_sha256Hex hc⟩⟩

/-- Witness for C6's amended theorem at the byte string `1`. -/
theorem hash_deterministic_hex64_witness :
    hash [49] = some (sha256Hex [49]) ∧ (sha256Hex [49]).length = 64 :=
  ⟨(hash_deterministic_hex64 [49] (by decide)).2.1,
   (hash_deterministic_hex64 [49] (by decide)).2.2.1⟩

/-- C7 counterexample: the empty byte sequence breaks the round trip —
`encrypt('')` returns `null` by the falsy guard, and `decrypt(null)`
returns `null`, not `''`. -/
theorem decrypt_encrypt_empty_returns_null :
    decrypt (List.replicate 32 0)
      (encrypt (List.replicate 12 0) (List.replicate 32 0) []) = none ∧
    decrypt (List.replicate 32 0)
      (encrypt (List.replicate 12 0) (List.replicate 32 0) []) ≠ some [] := by
  constructor
  · rfl
  · intro h
    simp [encrypt, decrypt] at h

/-- C7 (amended): for every nonempty byte sequence, decrypting the
`encrypt` token under the same key recovers the original bytes. -/
theorem encrypt_decrypt_roundtrip_nonempty :
    ∀ (iv key pt : List Nat), pt ≠ [] → (∀ b ∈ pt, b < 256) →
      (∀ b ∈ iv, b < 256) →
      decrypt key (encrypt iv key pt) = some pt :=
  fun iv key pt h₁ h₂ h₃ => gcm_encrypt_decrypt iv key pt h₁ h₂ h₃

/-- Witness for C7's amended theorem on the bytes `hi` with a zero key
and IV. -/
theorem encrypt_decrypt_roundtrip_nonempty_witness :
    decrypt (List.replicate 32 0)
      (encrypt (List.replicate 12 0) (List.replicate 32 0) [104, 105]) = some [104, 105] :=
  encrypt_decrypt_roundtrip_nonempty (List.replicate 12 0) (List.replicate 32 0)
    [104, 105] (by decide) (by decide) (by decide)

/-- C2 counterexample: for the transport IP `1.2.3.4` (bytes
`[49,46,50,46,51,46,52]`), decrypting the stored `ip` field yields the
64-character SHA-256 hex digest of the IP — the `POST /events` handler
hashes it before `storeEvent` encrypts — not the original value. -/
theorem stored_ip_decrypts_to_hash_not_plaintext :
    decrypt (List.replicate 32 0)
      (postEvents (List.replicate 32 0) (List.replicate 12 0) (List.replicate 12 0)
        (List.replicate 12 0) "site1" "pageview" []
        (some [49, 46, 50, 46, 51, 46, 52]) none none 0).ip ≠
      some [49, 46, 50, 46, 51, 46, 52] ∧
    decrypt (List.replicate 32 0)
      (postEvents (List.replicate 32 0) (List.replicate 12 0) (List.replicate 12 0)
        (List.replicate 12 0) "site1" "pageview" []
        (some [49, 46, 50, 46, 51, 46, 52]) none none 0).ip =
      some (utf8Encode (sha256Hex [49, 46, 50, 46, 51, 46, 52])) := by
  have hfield : (postEvents (List.replicate 32 0) (List.replicate 12 0) (List.replicate 12 0)
      (List.replicate 12 0) "site1" "pageview" []
      (some [49, 46, 50, 46, 51, 46, 52]) none none 0).ip =
      encrypt (List.replicate 12 0) (List.replicate 32 0)
        (utf8Encode (sha256Hex [49, 46, 50, 46, 51, 46, 52])) := by
    have hh : hashField (some [49, 46, 50, 46, 51, 46, 52]) =
        some (utf8Encode (sha256Hex [49, 46, 50, 46, 51, 46, 52])) := by
      simp [hashField]
    simp only [postEvents, storeEvent, hh, encryptField,
      if_neg (utf8_sha256Hex_ne_nil [49, 46, 50, 46, 51, 46, 52])]
  have hdec : decrypt (List.replicate 32 0)
      (encrypt (List.replicate 12 0) (List.replicate 32 0)
        (utf8Encode (sha256Hex [49, 46, 50, 46, 51, 46, 52]))) =
      some (utf8Encode (sha256Hex [49, 46, 50, 46, 51, 46, 52])) :=
    gcm_encrypt_decrypt _ _ _ (utf8_sha256Hex_ne_nil _)
      (fun b hb => utf8_sha256Hex_lt hb) (by decide)
  constructor
  · rw [hfield, hdec]
    intro h
    have hlen := utf8_sha256Hex_length [49, 46, 50, 46, 51, 46, 52]
    rw [Option.some_inj.mp h] at hlen
    simp at hlen
  · rw [hfield, hdec]

/-- C2 (amended): the stored `sessionId` is the reversible encryption of
the body value and decrypts to the original; the stored `ip` and
`userAgent` are the encryption of the SHA-256 hex digest of the
transport values, so decryption recovers the hash, not the original. -/
theorem stored_sensitive_fields_decrypt :
    ∀ (key iv₁ iv₂ iv₃ ip ua sid : List Nat) (siteId tp : String) (props : Props)
      (ts : Int),
      ip ≠ [] → ua ≠ [] → sid ≠ [] → (∀ b ∈ sid, b < 256) →
      (∀ b ∈ iv₁, b < 256) → (∀ b ∈ iv₂, b < 256) → (∀ b ∈ iv₃, b < 256) →
      decrypt key (postEvents key iv₁ iv₂ iv₃ siteId tp props
        (some ip) (some ua) (some sid) ts).sessionId = some sid ∧
      decrypt key (postEvents key iv₁ iv₂ iv₃ siteId tp props
        (some ip) (some ua) (some sid) ts).ip =
        some (utf8Encode (sha256Hex ip)) ∧
      decrypt key (postEvents key iv₁ iv₂ iv₃ siteId tp props
        (some ip) (some ua) (some sid) ts).userAgent =
        some (utf8Encode (sha256Hex ua)) := by
  intro key iv₁ iv₂ iv₃ ip ua sid siteId tp props ts hip hua hsid hsidb hiv₁ hiv₂ hiv₃
  refine ⟨?_, ?_, ?_⟩
  · show decrypt key (encryptField iv₃ key (some sid)) = some sid
    simp only [encryptField, if_neg hsid]
    exact gcm_encrypt_decrypt iv₃ key sid hsid hsidb hiv₃
  · show decrypt key (encryptField iv₁ key (hashField (some ip))) =
      some (utf8Encode (sha256Hex ip))
    simp only [hashField, if_neg hip, encryptField,
      if_neg (utf8_sha256Hex_ne_nil ip)]
    exact gcm_encrypt_decrypt iv₁ key _ (utf8_sha256Hex_ne_nil ip)
      (fun b hb => utf8_sha256Hex_lt hb) hiv₁
  · show decrypt key (encryptField iv₂ key (hashField (some ua))) =
      some (utf8Encode (sha256Hex ua))
    simp only [hashField, if_neg hua, encryptField,
      if_neg (utf8_sha256Hex_ne_nil ua)]
    exact gcm_encrypt_decrypt iv₂ key _ (utf8_sha256Hex_ne_nil ua)
      (fun b hb => utf8_sha256Hex_lt hb) hiv₂

/-- Witness for C2's amended theorem on concrete one-byte values. -/
theorem stored_sensitive_fields_decrypt_witness :
    decrypt (List.replicate 32 0)
      (postEvents (List.replicate 32 0) (List.replicate 12 0) (List.replicate 12 0)
        (List.replicate 12 0) "s" "t" [] (some [97]) (some [98]) (some [99]) 0).sessionId =
      some [99] :=
  (stored_sensitive_fields_decrypt (List.replicate 32 0) (List.replicate 12 0)
    (List.replicate 12 0) (List.replicate 12 0) [97] [98] [99] "s" "t" [] 0
    (by decide) (by decide) (by decide) (by decide) (by decide) (by decide) (by decide)).1

/-- C3: the GDPR delete predicate can never match a stored event.  The
handler compares `hash(sessionId)` (a 64-character hex digest) against
the stored column, but ingestion stored `encrypt(sessionId)` — a token
containing `:` separators — so the two are never equal and `deleteMany`
deletes nothing for any session query. -/
theorem gdpr_sessionId_predicate_never_matches_stored :
    (∀ (key iv sid q : List Nat) (tok : List Char),
        encrypt iv key sid = some tok → tok ≠ sha256Hex q)
    ∧ (∀ (key iv₁ iv₂ iv₃ sid q : List Nat) (siteId tp siteId' : String)
        (props : Props) (ip ua : Option (List Nat)) (ts : Int), sid ≠ [] →
        gdprDeleteBySession
          [postEvents key iv₁ iv₂ iv₃ siteId tp props ip ua (some sid) ts] siteId' q =
          ([postEvents key iv₁ iv₂ iv₃ siteId tp props ip ua (some sid) ts], 0)) := by
  have hmain : ∀ (key iv sid q : List Nat) (tok : List Char),
      encrypt iv key sid = some tok → tok ≠ sha256Hex q := by
    intro key iv sid q tok htok heq
    have hc := colon_mem_encrypt_token htok
    rw [heq] at hc
    exact colon_not_mem_sha256Hex q hc
  refine ⟨hmain, ?_⟩
  intro key iv₁ iv₂ iv₃ sid q siteId tp siteId' props ip ua ts hsid
  have hfield : (postEvents key iv₁ iv₂ iv₃ siteId tp props ip ua (some sid) ts).sessionId =
      encrypt iv₃ key sid := by
    show encryptField iv₃ key (some sid) = _
    simp [encryptField, hsid]
  have hpred : gdprSessionPredicate siteId' q
      (postEvents key iv₁ iv₂ iv₃ siteId tp props ip ua (some sid) ts) = false := by
    unfold gdprSessionPredicate
    rw [hfield]
    have hne : encrypt iv₃ key sid ≠ some (sha256Hex q) := by
      rw [encrypt_eq_some hsid]
      intro h
      exact hmain key iv₃ sid q _ (encrypt_eq_some hsid) (Option.some_inj.mp h)
    simp [hne]
  simp [gdprDeleteBySession, hpred]

/-- Witness for C3's theorem at concrete values. -/
theorem gdpr_sessionId_predicate_never_matches_stored_witness :
    gdprDeleteBySession
      [postEvents (List.replicate 32 0) (List.replicate 12 0) (List.replicate 12 0)
        (List.replicate 12 0) "s1" "t" [] none none (some [97, 98, 99]) 0] "s1"
      [97, 98, 99] =
      ([postEvents (List.replicate 32 0) (List.replicate 12 0) (List.replicate 12 0)
        (List.replicate 12 0) "s1" "t" [] none none (some [97, 98, 99]) 0], 0) :=
  gdpr_sessionId_predicate_never_matches_stored.2 (List.replicate 32 0)
    (List.replicate 12 0) (List.replicate 12 0) (List.replicate 12 0)
    [97, 98, 99] [97, 98, 99] "s1" "t" "s1" [] none none 0 (by decide)

/-- C9: the retention sweep deletes, across all sites, exactly the
events whose `siteId` matches a site and whose timestamp is strictly
older than `now - retentionDays` (in ms), reports the total deleted
count, is idempotent on an immediate re-run, and on the 30-day example
deletes the 40-day-old event while keeping the 1-day-old one. -/
theorem retention_sweep_spec :
    (∀ (now : Int) (sites : List Site) (events : List StoredEvent),
        (cleanupOldEvents now sites events).2 =
          events.filter (fun e => !eventExpiredAny now sites e) ∧
        (cleanupOldEvents now sites events).1 =
          events.length -
            (events.filter (fun e => !eventExpiredAny now sites e)).length)
    ∧ (∀ (now : Int) (sites : List Site) (e : StoredEvent),
        eventExpiredAny now sites e = true ↔
          ∃ s ∈ sites, e.siteId = s.siteId ∧
            e.timestamp < now - s.retentionDays * msPerDay)
    ∧ (∀ (now : Int) (sites : List Site) (events : List StoredEvent),
        cleanupOldEvents now sites ((cleanupOldEvents now sites events).2) =
          (0, (cleanupOldEvents now sites events).2))
    ∧ (cleanupOldEvents 3456000000 [⟨"s1", 30⟩]
        [⟨"s1", "pageview", [], none, none, none, 3456000000 - 40 * msPerDay⟩,
         ⟨"s1", "pageview", [], none, none, none, 3456000000 - 1 * msPerDay⟩] =
        (1, [⟨"s1", "pageview", [], none, none, none, 3456000000 - 1 * msPerDay⟩])) := by
  refine ⟨?_, ?_, ?_, ?_⟩
  · intro now sites events
    rw [cleanupOldEvents_eq]
    exact ⟨rfl, rfl⟩
  · intro now sites e
    simp [eventExpiredAny, List.any_eq_true, evtExpired, Bool.and_eq_true,
      decide_eq_true_eq]
  · intro now sites events
    have hr : (events.filter (fun e => !eventExpiredAny now sites e)).filter
        (fun e => !eventExpiredAny now sites e) =
        events.filter (fun e => !eventExpiredAny now sites e) :=
      List.filter_eq_self.mpr (fun a ha => (List.mem_filter.mp ha).2)
    simp only [cleanupOldEvents_eq, hr, Nat.sub_self]
  · decide

/-- Witness for C9's theorem, instantiating the sweep description and
idempotence on the concrete two-event example. -/
theorem retention_sweep_spec_witness :
    (cleanupOldEvents 3456000000 [⟨"s1", 30⟩]
      [⟨"s1", "pageview", [], none, none, none, 3456000000 - 40 * msPerDay⟩,
       ⟨"s1", "pageview", [], none, none, none, 3456000000 - 1 * msPerDay⟩]).2 =
      ([⟨"s1", "pageview", [], none, none, none, 3456000000 - 40 * msPerDay⟩,
        ⟨"s1", "pageview", [], none, none, none, 3456000000 - 1 * msPerDay⟩] :
        List StoredEvent).filter
        (fun e => !eventExpiredAny 3456000000 [⟨"s1", 30⟩] e) ∧
    cleanupOldEvents 3456000000 [⟨"s1", 30⟩]
      ((cleanupOldEvents 3456000000 [⟨"s1", 30⟩]
        [⟨"s1", "pageview", [], none, none, none, 3456000000 - 40 * msPerDay⟩,
         ⟨"s1", "pageview", [], none, none, none, 3456000000 - 1 * msPerDay⟩]).2) =
      (0, (cleanupOldEvents 3456000000 [⟨"s1", 30⟩]
        [⟨"s1", "pageview", [], none, none, none, 3456000000 - 40 * msPerDay⟩,
         ⟨"s1", "pageview", [], none, none, none, 3456000000 - 1 * msPerDay⟩]).2) :=
  ⟨(retention_sweep_spec.1 3456000000 [⟨"s1", 30⟩] _).1,
   retention_sweep_spec.2.2.1 3456000000 [⟨"s1", 30⟩] _⟩

/-- C10: a syntactically valid but non-HTTPS endpoint makes
`validateConfig` (and hence the `BaseAnalytics` constructor) throw
`Invalid API endpoint URL`: the HTTPS error raised inside the `try` is
swallowed by the `catch`, so `API endpoint must use HTTPS` is never
observable. -/
theorem invalid_endpoint_error_masks_https_error :
    ∀ (config : ClientConfig) (e : String) (u : JSURL),
      (∃ s, config.siteId = some (.vStr s) ∧ s ≠ "") →
      config.endpoint = some e → e ≠ "" →
      parseURL e.toList = some u →
      ¬ ("https".toList.isPrefixOf (urlProtocol u)) →
      validateConfig config = .error "Invalid API endpoint URL" ∧
      validateConfig config ≠ .error "API endpoint must use HTTPS" ∧
      ∀ st, mkClient config st = .error "Invalid API endpoint URL" := by
  intro config e u hsite hep hene hparse hhttps
  obtain ⟨s, hs, hsne⟩ := hsite
  have hfalse : ("https".toList.isPrefixOf (urlProtocol u)) = false := by
    cases hb : "https".toList.isPrefixOf (urlProtocol u)
    · rfl
    · exact absurd hb hhttps
  have hcheck : checkEndpoint e = .error "API endpoint must use HTTPS" := by
    unfold checkEndpoint
    rw [hparse]
    show (if (!("https".toList.isPrefixOf (urlProtocol u))) = true
        then Except.error "API endpoint must use HTTPS" else Except.ok ()) = _
    rw [hfalse]
    rfl
  have hgate : endpointGate config.endpoint = .error "Invalid API endpoint URL" := by
    rw [hep]
    show (if e ≠ "" then
        match checkEndpoint e with
        | .ok _ => Except.ok ()
        | .error _ => Except.error "Invalid API endpoint URL"
      else Except.ok ()) = _
    rw [if_pos hene, hcheck]
  have hval : validateConfig config = .error "Invalid API endpoint URL" := by
    unfold validateConfig
    rw [hs, hgate]
    simp [hsne]
  refine ⟨hval, ?_, ?_⟩
  · rw [hval]
    intro h
    have := Except.error.inj h
    simp at this
  · intro st
    unfold mkClient
    rw [hval]

/-- Witness for C10's theorem at the endpoint `http://api.example.com`. -/
theorem invalid_endpoint_error_masks_https_error_witness :
    validateConfig ⟨some (.vStr "site"), some "http://api.example.com",
      none, none, none⟩ = .error "Invalid API endpoint URL" :=
  (invalid_endpoint_error_masks_https_error
    ⟨some (.vStr "site"), some "http://api.example.com", none, none, none⟩
    "http://api.example.com"
    ⟨"http".toList, "api.example.com".toList, ['/'], [], none⟩
    ⟨"site", rfl, by decide⟩ rfl (by decide) (by decide) (by decide)).1

/-- C4 counterexample: on a fresh session (`consentRequired` defaulted
to true, no stored consent, `init()` not yet called), `track` queues the
event but a subsequent `enableTracking()` dispatches nothing —
`processQueue` returns early while `initialized` is false — so the
queued event is not sent exactly once as claimed; it stays queued. -/
theorem enableTracking_before_init_sends_nothing :
    mkClient ⟨some (.vStr "test-site"), some "https://test-api.simplitics.com",
      none, none, none⟩ none = .ok ⟨false, false, [], [], none⟩ ∧
    track ⟨false, false, [], [], none⟩ "test_event" [("value", .vStr "123")] "t0" "u0" =
      .ok (⟨false, false, [⟨"test_event", [("value", .vStr "123")], "t0", "u0"⟩], [], none⟩,
        ⟨"test_event", [("value", .vStr "123")], "t0", "u0"⟩) ∧
    (enableTracking
      ⟨false, false, [⟨"test_event", [("value", .vStr "123")], "t0", "u0"⟩], [], none⟩).sent
      = [] ∧
    (enableTracking
      ⟨false, false, [⟨"test_event", [("value", .vStr "123")], "t0", "u0"⟩], [], none⟩).queue
      = [⟨"test_event", [("value", .vStr "123")], "t0", "u0"⟩] ∧
    ((enableTracking
      ⟨false, false, [⟨"test_event", [("value", .vStr "123")], "t0", "u0"⟩], [], none⟩).sent).count
        ⟨"test_event", [("value", .vStr "123")], "t0", "u0"⟩ = 0 :=
  ⟨rfl, rfl, rfl, rfl, rfl⟩

/-- C4 (amended): while consent is absent `track` appends the event to
the queue and returns it unsent; `enableTracking()` on an *initialized*
session dispatches every queued event exactly once, in submission order,
and clears the queue; and no client operation ever dispatches an event
from a state that is still without consent afterwards. -/
theorem consent_gate_queue_flush :
    (∀ (s : ClientState) (name : String) (props : Props) (ts url : String)
        (s' : ClientState) (ev : ClientEvent),
        s.hasConsent = false →
        track s name props ts url = .ok (s', ev) →
        s'.queue = s.queue ++ [ev] ∧ s'.sent = s.sent ∧
          ev = ⟨name, props, ts, url⟩)
    ∧ (∀ s : ClientState, s.initialized = true →
        enableTracking s =
          { s with hasConsent := true, storedConsent := some "true",
                   queue := [], sent := s.sent ++ s.queue })
    ∧ (∀ (s : ClientState) (op : ClientOp),
        (clientStep s op).hasConsent = false → (clientStep s op).sent = s.sent) := by
  refine ⟨?_, ?_, ?_⟩
  · intro s name props ts url s' ev hcons h
    unfold track at h
    cases hvn : validateEventName name with
    | error msg => rw [hvn] at h; exact absurd h (by simp)
    | ok _ =>
      rw [hvn] at h
      cases hvp : validateProperties props with
      | error msg => rw [hvp] at h; exact absurd h (by simp)
      | ok _ =>
        rw [hvp] at h
        rw [hcons] at h
        rw [if_pos (show (!(false : Bool) || !s.initialized) = true by simp)] at h
        have hpair := Except.ok.inj h
        have h₁ := congrArg Prod.fst hpair
        have h₂ := congrArg Prod.snd hpair
        simp only at h₁ h₂
        subst h₁
        subst h₂
        exact ⟨rfl, rfl, rfl⟩
  · intro s hinit
    unfold enableTracking processQueue
    simp [hinit]
  · intro s op hc
    cases op with
    | opInit =>
      by_cases hinit : s.initialized
      · simp [clientStep, clientInit, hinit]
      · by_cases hcons : s.hasConsent
        · exfalso
          simp [clientStep, clientInit, hinit, processQueue, hcons] at hc
        · simp [clientStep, clientInit, hinit, processQueue, hcons]
    | opEnable =>
      exfalso
      simp [clientStep, enableTracking, processQueue] at hc
      by_cases hinit : s.initialized <;> simp [hinit] at hc
    | opDisable => simp [clientStep, disableTracking]
    | opProcess =>
      by_cases hcons : s.hasConsent
      · by_cases hinit : s.initialized
        · exfalso
          simp [clientStep, processQueue, hcons, hinit] at hc
        · simp [clientStep, processQueue, hcons, hinit]
      · simp [clientStep, processQueue, hcons]
    | opTrack name props ts url =>
      cases hvn : validateEventName name with
      | error msg => simp [clientStep, track, hvn]
      | ok u1 =>
        cases hvp : validateProperties props with
        | error msg => simp [clientStep, track, hvn, hvp]
        | ok u2 =>
          by_cases hcons : s.hasConsent
          · by_cases hinit : s.initialized
            · exfalso
              simp [clientStep, track, hvn, hvp, hcons, hinit] at hc
            · simp [clientStep, track, hvn, hvp, hcons, hinit]
          · simp [clientStep, track, hvn, hvp, hcons]

/-- C8: URL cleaning.  The repository's own example URL sanitizes to
`http://example.com/?name=john`; a url that fails to parse is left
untouched verbatim by the sanitizer; and for every parseable URL the
cleaned form is the rendered URL whose query holds exactly the
non-tracking parameters of the original (in order), with one trailing
slash dropped from the final form when present. -/
theorem url_cleaning_spec :
    (sanitizeProperties true
        [("type", .vStr "pageview"),
         ("url", .vStr "http://example.com?utm_source=test&utm_medium=email&name=john")] =
      [("type", .vStr "pageview"), ("url", .vStr "http://example.com/?name=john")])
    ∧ (∀ (hu : Bool) (props : Props) (s : String),
        getProp props "url" = some (.vStr s) → parseURL s.toList = none →
        getProp (sanitizeProperties hu props) "url" = some (.vStr s))
    ∧ (∀ (s : List Char) (u : JSURL), parseURL s = some u →
        ∃ kept : List (List Char × List Char),
          cleanUrl s = some (stripTrailingSlash
            (urlToString { u with query := serializeParams kept })) ∧
          parseParams (serializeParams kept) = kept ∧
          (∀ kv ∈ kept, kv.1 ∉ trackingParamsChars ∧ kv ∈ parseParams u.query) ∧
          (∀ kv ∈ parseParams u.query, kv.1 ∉ trackingParamsChars → kv ∈ kept)) := by
  refine ⟨by decide, ?_, ?_⟩
  · intro hu props s hget hparse
    show getProp (urlCleanStep (trackingParams.foldl delProp
      (if hu = true then sensitiveIds.foldl hashSensitiveStep (piiFields.foldl delProp props)
       else piiFields.foldl delProp props))) "url" = some (.vStr s)
    have hstage : getProp (trackingParams.foldl delProp
        (if hu = true then sensitiveIds.foldl hashSensitiveStep
          (piiFields.foldl delProp props)
         else piiFields.foldl delProp props)) "url" = some (.vStr s) := by
      rw [getProp_foldl_delProp_notMem trackingParams _ _ (by decide)]
      by_cases hhu : hu
      · rw [if_pos hhu, getProp_foldl_hash_notMem sensitiveIds _ _ (by decide),
          getProp_foldl_delProp_notMem piiFields _ _ (by decide)]
        exact hget
      · rw [if_neg hhu, getProp_foldl_delProp_notMem piiFields _ _ (by decide)]
        exact hget
    exact urlCleanStep_getProp_parse_fail hstage hparse
  · intro s u hparse
    refine ⟨(parseParams u.query).filter (fun kv => kv.1 ∉ trackingParamsChars),
      ?_, ?_, ?_, ?_⟩
    · unfold cleanUrl
      rw [hparse]
    · apply parseParams_serializeParams
      intro kv hkv
      exact parseParams_wf u.query kv (List.mem_filter.mp hkv).1
    · intro kv hkv
      have h := List.mem_filter.mp hkv
      exact ⟨by simpa using h.2, h.1⟩
    · intro kv hkv hnt
      exact List.mem_filter.mpr ⟨hkv, by simpa using hnt⟩

/-- Witness for C8's theorem: an unparseable url left verbatim and a
concrete parseable URL with one tracking and one ordinary parameter. -/
theorem url_cleaning_spec_witness :
    getProp (sanitizeProperties true [("url", .vStr "not-a-valid-url")]) "url" =
      some (.vStr "not-a-valid-url") ∧
    (∃ kept : List (List Char × List Char),
      cleanUrl "http://a.b?utm_source=1&x=2".toList = some (stripTrailingSlash
        (urlToString { scheme := "http".toList, host := "a.b".toList, path := ['/'],
                       query := serializeParams kept, fragment := none })) ∧
      parseParams (serializeParams kept) = kept ∧
      (∀ kv ∈ kept, kv.1 ∉ trackingParamsChars ∧
        kv ∈ parseParams ("utm_source=1&x=2".toList)) ∧
      (∀ kv ∈ parseParams ("utm_source=1&x=2".toList),
        kv.1 ∉ trackingParamsChars → kv ∈ kept)) :=
  ⟨url_cleaning_spec.2.1 true [("url", .vStr "not-a-valid-url")] "not-a-valid-url"
    rfl (by decide),
   url_cleaning_spec.2.2 "http://a.b?utm_source=1&x=2".toList
     ⟨"http".toList, "a.b".toList, ['/'], "utm_source=1&x=2".toList, none⟩ (by decide)⟩

/-- Witness for C4's amended theorem on a concrete initialized
no-consent session. -/
theorem consent_gate_queue_flush_witness :
    ((⟨true, false, [⟨"e1", [], "t", "u"⟩], [], none⟩ : ClientState).queue =
        (⟨true, false, [], [], none⟩ : ClientState).queue ++ [⟨"e1", [], "t", "u"⟩] ∧
      (⟨true, false, [⟨"e1", [], "t", "u"⟩], [], none⟩ : ClientState).sent =
        (⟨true, false, [], [], none⟩ : ClientState).sent ∧
      (⟨"e1", [], "t", "u"⟩ : ClientEvent) = ⟨"e1", [], "t", "u"⟩) ∧
    enableTracking ⟨true, false, [⟨"e1", [], "t", "u"⟩], [], none⟩ =
      ⟨true, true, [], [⟨"e1", [], "t", "u"⟩], some "true"⟩ ∧
    (clientStep ⟨false, false, [], [], none⟩ .opDisable).sent = [] :=
  ⟨consent_gate_queue_flush.1 ⟨true, false, [], [], none⟩ "e1" [] "t" "u"
    ⟨true, false, [⟨"e1", [], "t", "u"⟩], [], none⟩ ⟨"e1", [], "t", "u"⟩ rfl rfl,
   by
    have h := consent_gate_queue_flush.2.1
      ⟨true, false, [⟨"e1", [], "t", "u"⟩], [], none⟩ rfl
    simpa using h,
   consent_gate_queue_flush.2.2 ⟨false, false, [], [], none⟩ .opDisable (by decide)⟩

end Simplitics
